import Mathlib

/-!
Shallow embedding of the deep-research-agent pipeline core
(src/lib/research/pipeline.ts and the scored-gate module) in Lean 4.

Modelling conventions:
* JavaScript strings are modelled as `List Char` (`Str`); lengths, slices and
  character codes agree with JS for strings of BMP characters, which is the
  regime of every call site in the repository.
* JavaScript numbers used for hashing are modelled exactly: the intermediate
  product `h * 0x01000193` is an IEEE-754 double, so integer products of
  magnitude at least 2^53 are rounded to nearest (ties to even); `x >>> 0` is
  ToUint32; the xor assignment operates on the 32-bit pattern via ToInt32.
* Scores, confidences and averages are modelled as rationals.
* Hostname extraction by the platform URL constructor is not repository code;
  it is abstracted as a parameter `p : Str → Option Str` (`none` models the
  constructor throwing on a malformed URL).
* Awaited searcher calls run strictly in sequence, so effects are modelled in
  `Except ε`: a searcher either returns a result list or fails with a
  provider error.
* Possibly-null entries inside a searcher result array are modelled as
  `Option Source` elements, matching the defensive null-and-empty guard in
  `dedupeSourcesByUrl`.
-/

abbrev Str := List Char

/-- Character class matched by JavaScript regex whitespace (also the set
trimmed by string trim): ASCII whitespace, NBSP, Ogham space mark, the
Unicode Zs spaces, line separator, paragraph separator and the BOM. -/
def isJsWs (c : Char) : Bool :=
  [0x9, 0xA, 0xB, 0xC, 0xD, 0x20, 0xA0, 0x1680,
    0x2028, 0x2029, 0x202F, 0x205F, 0x3000, 0xFEFF].contains c.toNat
  || (0x2000 ≤ c.toNat && c.toNat ≤ 0x200A)

/-- Embedding of the global whitespace-run replacement in `normalizeQuery`:
each maximal run of whitespace becomes a single space.  The flag records
whether the previous character was whitespace. -/
def collapseWsAux : Bool → Str → Str
  | _, [] => []
  | inWs, c :: rest =>
    if isJsWs c then
      if inWs then collapseWsAux true rest
      else ' ' :: collapseWsAux true rest
    else c :: collapseWsAux false rest

def collapseWs (s : Str) : Str := collapseWsAux false s

/-- Embedding of the null-character removal in `normalizeQuery`. -/
def removeNulls (s : Str) : Str := s.filter (fun c => c.toNat ≠ 0)

/-- Embedding of trimStart. -/
def trimStartJs (s : Str) : Str := s.dropWhile isJsWs

/-- Embedding of trimEnd. -/
def trimEndJs (s : Str) : Str := (s.reverse.dropWhile isJsWs).reverse

/-- Embedding of trim. -/
def trimJs (s : Str) : Str := trimStartJs (trimEndJs s)

/-- Embedding of `normalizeQuery` (pipeline.ts): collapse whitespace runs,
strip null characters, trim. -/
def normalizeQuery (q : Str) : Str := trimJs (removeNulls (collapseWs q))

/-! ### JavaScript number semantics for the hash -/

/-- Fuel-bounded floor of the base-2 logarithm (the fuel only drives
structural recursion; with fuel at least the argument the value is the exact
floor, and every use below supplies the argument itself as fuel). -/
def log2Fuel : ℕ → ℕ → ℕ
  | 0, _ => 0
  | fuel + 1, n => if n < 2 then 0 else log2Fuel fuel (n / 2) + 1

/-- Rounding of a nonnegative integer to the nearest IEEE-754 double
(round to nearest, ties to even).  Exact below 2^53; above, the value is
rounded to the nearest multiple of the unit in the last place. -/
def roundDouble (n : ℕ) : ℕ :=
  if n < 2 ^ 53 then n
  else
    let u := 2 ^ (log2Fuel n n - 52)
    let q := n / u
    let r := n % u
    if 2 * r < u then q * u
    else if u < 2 * r then (q + 1) * u
    else if q % 2 = 0 then q * u else (q + 1) * u

/-- ToUint32 of an integral double. -/
def jsToUint32 (i : ℤ) : ℕ := (i % (2 ^ 32 : ℤ)).toNat

/-- One iteration of the loop body of `fnv1a` (pipeline.ts) with exact JS
number semantics: the xor runs on 32-bit patterns and yields a signed Int32,
the product with 0x01000193 is an IEEE double (rounded once its magnitude
reaches 2^53), and the unsigned shift by zero is ToUint32. -/
def fnv1aStep (h code : ℕ) : ℕ :=
  let hx := Nat.xor h code
  let v : ℤ := if hx < 2 ^ 31 then (hx : ℤ) else (hx : ℤ) - 2 ^ 32
  let prod : ℤ := v * 16777619
  let rounded : ℤ :=
    if prod < 0 then -(roundDouble prod.natAbs : ℤ) else (roundDouble prod.natAbs : ℤ)
  jsToUint32 rounded

/-- Accumulator computed by `fnv1a` (pipeline.ts): fold `fnv1aStep` over the
character codes, starting at the FNV offset basis. -/
def fnv1aNum (s : Str) : ℕ := s.foldl (fun h c => fnv1aStep h c.toNat) 0x811c9dc5

/-- Embedding of `h.toString(16).padStart(8, "0")` for `h < 2^32`. -/
def toHex8 (n : ℕ) : Str :=
  let ds := Nat.toDigits 16 n
  List.replicate (8 - ds.length) '0' ++ ds

/-- Embedding of `fnv1a` (pipeline.ts): the rendered hash string. -/
def fnv1a (s : Str) : Str := "fnv1a32:".toList ++ toHex8 (fnv1aNum s)

/-- Modelled from the spec: the true 32-bit FNV-1a hash (offset basis
0x811c9dc5, prime 0x01000193, per-character XOR then multiply modulo 2^32),
the algorithm that the source function `fnv1a` names and intends. -/
def fnv1aSpecNum (s : Str) : ℕ :=
  s.foldl (fun h c => (Nat.xor h c.toNat) * 16777619 % 2 ^ 32) 0x811c9dc5

/-- Rendering of the spec-intended FNV-1a hash. -/
def fnv1aSpec (s : Str) : Str := "fnv1a32:".toList ++ toHex8 (fnv1aSpecNum s)

/-! ### Truncation -/

structure TruncResult where
  q : Str
  truncated : Bool
  originalLength : ℕ
  usedLength : ℕ
  hash : Str
deriving DecidableEq, Repr

/-- Fixed 3-character elision marker (space, horizontal ellipsis, space). -/
def elisionMarker : Str := " … ".toList

/-- Embedding of `truncateTavilyQuery` (pipeline.ts).  `headLen` embeds
`Math.floor(keep * 0.72)` as exact integer arithmetic; at the sole call-site
budget (`maxLen = 400`, `keep = 397`) the double computation and the exact
one agree (both give 285). -/
def truncateTavilyQuery (query : Str) (maxLen : ℕ) : TruncResult :=
  let q0 := normalizeQuery query
  let originalLength := q0.length
  if originalLength ≤ maxLen then
    ⟨q0, false, originalLength, originalLength, fnv1a q0⟩
  else
    let keep := maxLen - elisionMarker.length
    let headLen := keep * 72 / 100
    let tailLen := keep - headLen
    let head := trimEndJs (q0.take headLen)
    let tail := trimStartJs (q0.drop (q0.length - tailLen))
    let q := (head ++ elisionMarker ++ tail).take maxLen
    ⟨q, true, originalLength, q.length, fnv1a q0⟩

/-! ### Sources, dedup, domains -/

inductive Provider where
  | tavily
  | unknown
deriving DecidableEq, Repr

/-- Breakdown record of sub-scores (keys snippet and content). -/
structure ScoreBreakdown where
  snippet : ℚ
  content : ℚ
deriving DecidableEq, Repr

/-- Embedding of `Source` (types/research.ts). -/
structure Source where
  url : Str
  title : Str
  snippet : Str
  content : Str
  rawContent : Option Str := none
  publishedDate : Option Str := none
  provider : Provider := Provider.tavily
  score : Option ℚ := none
  scoreBreakdown : Option ScoreBreakdown := none
deriving DecidableEq, Repr

/-- Embedding of `dedupeSourcesByUrl` (pipeline.ts): first-seen-wins dedup
keyed on the exact url string; entries that are null (`none`) or have an
empty url are skipped by the falsy guard.  `seen` holds the urls already
kept, mirroring the key set of the Map; output order is Map insertion
order. -/
def dedupeSourcesByUrlAux (seen : List Str) : List (Option Source) → List Source
  | [] => []
  | none :: rest => dedupeSourcesByUrlAux seen rest
  | some s :: rest =>
    if s.url = [] then dedupeSourcesByUrlAux seen rest
    else if s.url ∈ seen then dedupeSourcesByUrlAux seen rest
    else s :: dedupeSourcesByUrlAux (s.url :: seen) rest

def dedupeSourcesByUrl (sources : List (Option Source)) : List Source :=
  dedupeSourcesByUrlAux [] sources

/-- Platform URL parser: `some hostname` when the URL constructor succeeds,
`none` when it throws. -/
abbrev UrlParser := Str → Option Str

/-- Embedding of the leading-www replacement. -/
def stripWww (h : Str) : Str :=
  if "www.".toList <+: h then h.drop 4 else h

/-- Embedding of `safeDomain` (pipeline.ts): hostname with a leading www
prefix stripped, or the empty string for a malformed URL. -/
def safeDomain (p : UrlParser) (url : Str) : Str :=
  match p url with
  | none => []
  | some h => stripWww h

/-- Size of the set of truthy safe domains, as used by the pipeline
(`simpleGate`, `runTavilyPass`). -/
def uniqueDomainCount (p : UrlParser) (urls : List Str) : ℕ :=
  (((urls.map (safeDomain p)).filter (fun d => d ≠ [])).toFinset).card

/-- Embedding of `uniqueDomains` of the scored-gate module: hostnames of
parseable URLs, www stripped, inserted into a set; malformed URLs silently
skipped (note: no falsy filter in this variant). -/
def uniqueDomainsScored (p : UrlParser) (urls : List Str) : ℕ :=
  ((urls.filterMap (fun u => (p u).map stripWww)).toFinset).card

/-! ### Keyword extraction -/

/-- Characters kept by the keyword cleaning regex: lowercase letters,
digits, whitespace and the hyphen; anything else is replaced by a space. -/
def isKwChar (c : Char) : Bool :=
  (97 ≤ c.toNat && c.toNat ≤ 122) || (48 ≤ c.toNat && c.toNat ≤ 57) ||
    isJsWs c || c.toNat = 45

/-- Cleaning phase of `extractKeywordsDeterministic`: lowercase, replace
characters outside the kept class by spaces, collapse whitespace, trim. -/
def cleanKeywordText (text : Str) : Str :=
  trimJs (collapseWs ((text.map Char.toLower).map (fun c => if isKwChar c then c else ' ')))

/-- Embedding of split on a single space character. -/
def splitOnSpaceAux (acc : Str) : Str → List Str
  | [] => [acc.reverse]
  | c :: rest =>
    if c = ' ' then acc.reverse :: splitOnSpaceAux [] rest
    else splitOnSpaceAux (c :: acc) rest

def splitOnSpace (s : Str) : List Str := splitOnSpaceAux [] s

/-- Fixed stop-word set of `extractKeywordsDeterministic`. -/
def stopWords : List Str :=
  (["the", "and", "for", "with", "from", "that", "this", "are", "was", "were",
    "you", "your", "their", "about", "into", "over", "under", "more", "less",
    "than", "then", "also", "how", "what", "why", "when", "where", "which",
    "who", "whom", "can", "could", "should", "would", "may", "might",
    "evidence", "analysis", "research", "study", "studies", "report",
    "reports"]).map String.toList

/-- Embedding of `freq.set(token, (freq.get(token) ?? 0) + 1)` on an
insertion-ordered association list (the iteration order of a JS Map). -/
def bump : List (Str × ℕ) → Str → List (Str × ℕ)
  | [], t => [(t, 1)]
  | (k, n) :: rest, t =>
    if k = t then (k, n + 1) :: rest else (k, n) :: bump rest t

/-- Strict lexicographic (code-point) order on strings.  For the token
alphabet of the extractor (lowercase ASCII letters, digits, hyphen) this
coincides with the default-locale collation used by localeCompare. -/
def lexLt : Str → Str → Bool
  | [], [] => false
  | [], _ :: _ => true
  | _ :: _, [] => false
  | a :: as, b :: bs => if a < b then true else if b < a then false else lexLt as bs

def lexLe (a b : Str) : Bool := !lexLt b a

/-- Order produced by the comparator
`(b[1] - a[1]) || a[0].localeCompare(b[0])`: descending count, ties broken
by ascending lexicographic key. -/
def lePairB (x y : Str × ℕ) : Bool :=
  decide (y.2 < x.2) || (decide (x.2 = y.2) && lexLe x.1 y.1)

def lePair (x y : Str × ℕ) : Prop := lePairB x y = true

instance : DecidableRel lePair :=
  fun x y => inferInstanceAs (Decidable (lePairB x y = true))

/-- Embedding of `extractKeywordsDeterministic` (pipeline.ts).  The sort
models the stable Array sort with the count/locale comparator. -/
def extractKeywordsDeterministic (text : Str) (max : ℕ) : List Str :=
  let cleaned := cleanKeywordText text
  if cleaned = [] then []
  else
    let freq := (splitOnSpace cleaned).foldl
      (fun acc token =>
        if token.length < 4 then acc
        else if token ∈ stopWords then acc
        else bump acc token) []
    ((List.insertionSort lePair freq).take max).map Prod.fst

/-! ### Gates -/

inductive DecisionStatus where
  | EVIDENCE_SUFFICIENT
  | INSUFFICIENT_EVIDENCE
deriving DecidableEq, Repr

inductive Lang where
  | nl
  | en
deriving DecidableEq, Repr

/-- Decimal rendering of a nonnegative number, as interpolated into the
rationale template strings. -/
def natToStr (n : ℕ) : Str := Nat.toDigits 10 n

structure SimpleGateResult where
  decisionStatus : DecisionStatus
  confidence : ℚ
  confidenceRationale : Str
deriving DecidableEq, Repr

/-- Embedding of `simpleGate` (pipeline.ts): the breadth gate wired into the
pipeline decision path. -/
def simpleGate (p : UrlParser) (sources : List Source) (lang : Option Lang) :
    SimpleGateResult :=
  let uniqueDomains := uniqueDomainCount p (sources.map Source.url)
  let enough := decide (6 ≤ sources.length) && decide (4 ≤ uniqueDomains)
  if enough then
    { decisionStatus := DecisionStatus.EVIDENCE_SUFFICIENT
      confidence := 0.78
      confidenceRationale :=
        if lang = some Lang.en then
          "Sufficient breadth: ".toList ++ natToStr sources.length ++
            " sources across ".toList ++ natToStr uniqueDomains ++ " domains.".toList
        else
          "Voldoende breedte: ".toList ++ natToStr sources.length ++
            " bronnen over ".toList ++ natToStr uniqueDomains ++ " domeinen.".toList }
  else
    { decisionStatus := DecisionStatus.INSUFFICIENT_EVIDENCE
      confidence := 0.32
      confidenceRationale :=
        if lang = some Lang.en then
          "Insufficient breadth: ".toList ++ natToStr sources.length ++
            " sources across ".toList ++ natToStr uniqueDomains ++ " domains.".toList
        else
          "Onvoldoende breedte: ".toList ++ natToStr sources.length ++
            " bronnen over ".toList ++ natToStr uniqueDomains ++ " domeinen.".toList }

/-- Embedding of `clamp` from the scored-gate module (defaults 0 and 1). -/
def clamp (n : ℚ) : ℚ := max 0 (min 1 n)

/-- Embedding of `scoreOne`: weighted snippet/content quality score with its
breakdown. -/
def scoreOne (s : Source) : ℚ × ScoreBreakdown :=
  let snippetLen := (trimJs s.snippet).length
  let contentLen := (trimJs s.content).length
  let snippetScore := clamp ((snippetLen : ℚ) / 300)
  let contentScore := clamp ((contentLen : ℚ) / 2500)
  (0.45 * snippetScore + 0.55 * contentScore, ⟨snippetScore, contentScore⟩)

/-- Order produced by the comparator `(b.score ?? 0) - (a.score ?? 0)`:
descending by score. -/
def descByScore (a b : Source) : Prop := b.score.getD 0 ≤ a.score.getD 0

instance : DecidableRel descByScore :=
  fun a b => inferInstanceAs (Decidable (b.score.getD 0 ≤ a.score.getD 0))

instance : IsTotal Source descByScore :=
  ⟨fun a b => le_total (b.score.getD 0) (a.score.getD 0)⟩

instance : IsTrans Source descByScore :=
  ⟨fun _ _ _ hab hbc => le_trans hbc hab⟩

structure GateMetrics where
  sources : ℕ
  uniqueDomains : ℕ
  avgScore : ℚ
  topSourceScore : ℚ
  top3AvgScore : ℚ
  lowInfoRatio : ℚ
deriving DecidableEq, Repr

structure GateResult where
  passed : Bool
  metrics : GateMetrics
  scored : List Source
deriving DecidableEq, Repr

/-- Low-information test of the scored gate: too-short content or snippet
(after trimming, as the source reads the trimmed lengths). -/
def isLowInfo (s : Source) : Bool :=
  decide ((trimJs s.content).length < 400) || decide ((trimJs s.snippet).length < 80)

/-- Embedding of `scoreSourcesAndGate` (scored-gate module).  The in-place
Array sort with the score comparator is a stable sort, embedded as insertion
sort by the descending-score order. -/
def scoreSourcesAndGate (p : UrlParser) (sources : List Source) : GateResult :=
  let scored0 := sources.map (fun s =>
    { s with score := some (scoreOne s).1, scoreBreakdown := some (scoreOne s).2 })
  let scored := List.insertionSort descByScore scored0
  let sourceCount := scored.length
  let domainCount := uniqueDomainsScored p (scored.map Source.url)
  let avgScore : ℚ :=
    if sourceCount = 0 then 0
    else (scored.map (fun s => s.score.getD 0)).sum / sourceCount
  let topSourceScore : ℚ :=
    match scored with
    | [] => 0
    | s :: _ => s.score.getD 0
  let top3 := scored.take 3
  let top3AvgScore : ℚ :=
    if top3.length = 0 then 0
    else (top3.map (fun s => s.score.getD 0)).sum / top3.length
  let lowInfoCount := (scored.filter isLowInfo).length
  let lowInfoRatio : ℚ := if sourceCount = 0 then 1 else (lowInfoCount : ℚ) / sourceCount
  let metrics : GateMetrics :=
    ⟨sourceCount, domainCount, avgScore, topSourceScore, top3AvgScore, lowInfoRatio⟩
  let passed : Bool :=
    decide (12 ≤ metrics.sources) && decide (6 ≤ metrics.uniqueDomains) &&
    decide (0.45 ≤ metrics.avgScore) && decide (0.65 ≤ metrics.topSourceScore) &&
    decide (0.55 ≤ metrics.top3AvgScore) && decide (metrics.lowInfoRatio ≤ 0.5)
  ⟨passed, metrics, scored⟩

/-! ### Pass runner and pipeline orchestrator -/

inductive PassName where
  | seed
  | expand
  | authority
deriving DecidableEq, Repr

structure DebugPass where
  pass : PassName
  queries : List TruncResult
  sources : ℕ
  uniqueDomains : ℕ
deriving DecidableEq, Repr

structure PassResult where
  sources : List Source
  debug : DebugPass
deriving DecidableEq, Repr

/-- Injected search function: may fail with a provider error `ε`; a result
array may contain null entries (`none`). -/
abbrev Searcher (ε : Type) := Str → Except ε (List (Option Source))

def TAVILY_QUERY_MAX : ℕ := 400

/-- Query loop of `runTavilyPass`: truncate each raw query, record its
truncation metadata, invoke the searcher, and concatenate all returned
sources; the first searcher failure aborts the whole loop.  (The telemetry
call `logEvent` is fire-and-forget console output and has no effect on any
result.) -/
def runQueriesAux {ε : Type} (searcher : Searcher ε) :
    List Str → Except ε (List TruncResult × List (Option Source))
  | [] => Except.ok ([], [])
  | raw :: rest => do
    let t := truncateTavilyQuery raw TAVILY_QUERY_MAX
    let results ← searcher t.q
    let (qs, srcs) ← runQueriesAux searcher rest
    Except.ok (t :: qs, results ++ srcs)

/-- Embedding of `runTavilyPass` (pipeline.ts). -/
def runTavilyPass {ε : Type} (p : UrlParser) (pass : PassName) (queries : List Str)
    (searcher : Searcher ε) : Except ε PassResult := do
  let (qDebug, allSources) ← runQueriesAux searcher queries
  let deduped := dedupeSourcesByUrl allSources
  let uniqueDomains := uniqueDomainCount p (deduped.map Source.url)
  Except.ok ⟨deduped, ⟨pass, qDebug, deduped.length, uniqueDomains⟩⟩

structure PipelineInput where
  goal : Str
  decision : Str
  outputFormat : Str
  outputLanguage : Option Lang := none
  constraints : Option Str := none
deriving DecidableEq, Repr

/-- Embedding of `buildSeedQueries` (pipeline.ts). -/
def buildSeedQueries (input : PipelineInput) : List Str :=
  let q1 := input.goal ++ ". Context: ".toList ++ input.decision ++ ".".toList
  let q2 := input.decision ++ " evidence benchmarks and decision criteria".toList
  let q3 := input.decision ++ " risks edge cases trade-offs".toList
  ([q1, q2, q3].map normalizeQuery).filter (fun q => q ≠ [])

/-- Embedding of `buildExpandQueries` (pipeline.ts). -/
def buildExpandQueries (input : PipelineInput) (seedSources : List Source) : List Str :=
  let top := ((seedSources.take 6).map
    (fun s => trimJs (s.title ++ [' '] ++ s.snippet))).filter (fun t => t ≠ [])
  let keywords := extractKeywordsDeterministic (List.intercalate [' '] top) 10
  let base := input.decision
  let qs := [
    base ++ [' '] ++ List.intercalate [' '] (keywords.take 3) ++
      " comparative analysis".toList,
    base ++ [' '] ++ List.intercalate [' '] ((keywords.drop 3).take 3) ++
      " latest evidence".toList,
    base ++ [' '] ++ List.intercalate [' '] ((keywords.drop 6).take 4) ++
      " failure modes".toList]
  (qs.map normalizeQuery).filter (fun q => q ≠ [])

/-- First-occurrence-order dedup of a string list (insertion order of a JS
Set). -/
def firstDedupAux (seen : List Str) : List Str → List Str
  | [] => []
  | x :: xs =>
    if x ∈ seen then firstDedupAux seen xs
    else x :: firstDedupAux (x :: seen) xs

def firstDedup (l : List Str) : List Str := firstDedupAux [] l

def AUTHORITY_DOMAINS : List Str :=
  (["wikipedia.org", "gov", "europa.eu", "who.int", "oecd.org", "imf.org",
    "worldbank.org", "nature.com", "science.org", "sciencedirect.com",
    "jamanetwork.com", "nejm.org", "harvard.edu", "mit.edu"]).map String.toList

def pickAuthorityDomains (n : ℕ) : List Str := AUTHORITY_DOMAINS.take n

/-- Embedding of `buildAuthorityQueries` (pipeline.ts). -/
def buildAuthorityQueries (p : UrlParser) (input : PipelineInput)
    (sourcesSoFar : List Source) : List Str :=
  let domains := (firstDedup
    ((sourcesSoFar.map (fun s => safeDomain p s.url)).filter (fun d => d ≠ []))).take 8
  let domainHints :=
    if domains ≠ [] then
      " Already-seen domains: ".toList ++ List.intercalate ", ".toList domains ++ ".".toList
    else []
  let base := normalizeQuery
    (input.decision ++ " authoritative sources guidelines consensus".toList ++ domainHints)
  let authoritySites := pickAuthorityDomains 3
  let siteQ := authoritySites.map
    (fun d => normalizeQuery (input.decision ++ " site:".toList ++ d ++ " evidence".toList))
  (([base] ++ siteQ).map normalizeQuery).filter (fun q => q ≠ [])

/-- Embedding of `buildRecommendationFromEvidence` (pipeline.ts). -/
def buildRecommendationFromEvidence (input : PipelineInput) (sources : List Source) : Str :=
  let lang := input.outputLanguage.getD Lang.nl
  let top := List.intercalate ['\n'] ((sources.take 5).map
    (fun s => "- ".toList ++ (if s.title ≠ [] then s.title else s.url)))
  if lang = Lang.en then
    "Recommendation (based on collected evidence):\n\nGoal: ".toList ++ input.goal ++
      "\nDecision: ".toList ++ input.decision ++ "\n\nTop sources:\n".toList ++ top
  else
    "Aanbeveling (op basis van gevonden evidence):\n\nDoel: ".toList ++ input.goal ++
      "\nBeslissing: ".toList ++ input.decision ++ "\n\nTop bronnen:\n".toList ++ top

/-- Embedding of `buildSafeDefault` (pipeline.ts). -/
def buildSafeDefault (input : PipelineInput) : Str :=
  let lang := input.outputLanguage.getD Lang.nl
  if lang = Lang.en then
    "Insufficient evidence to make a robust recommendation.\n\nSafe default:\n- Define explicit decision criteria (must-haves / nice-to-haves).\n- Collect 3–5 additional primary/authoritative sources.\n- Re-run the research with a tighter scope.\n\nContext:\nGoal: ".toList ++
      input.goal ++ "\nDecision: ".toList ++ input.decision
  else
    "Onvoldoende bewijs om een robuuste aanbeveling te doen.\n\nSafe default:\n- Formuleer expliciete besliscriteria (must-haves / nice-to-haves).\n- Verzamel 3–5 extra primaire/autoritatieve bronnen.\n- Herhaal het onderzoek met aangescherpte scope.\n\nContext:\nDoel: ".toList ++
      input.goal ++ "\nBeslissing: ".toList ++ input.decision

structure ConfidenceOverview where
  overall : ℚ
  rationale : Str
deriving DecidableEq, Repr

structure DebugInfo where
  passes : List DebugPass
deriving DecidableEq, Repr

structure PipelineOutput where
  decisionStatus : DecisionStatus
  recommendationOrSafeDefault : Str
  confidenceOverview : ConfidenceOverview
  sources : List Source
  debug : Option DebugInfo
deriving DecidableEq, Repr

/-- Embedding of `runResearchPipeline` (pipeline.ts): three strictly
sequential passes, merge-dedup, breadth gate, branch selection, optional
debug attachment. -/
def runResearchPipeline {ε : Type} (p : UrlParser) (input : PipelineInput)
    (searcher : Searcher ε) (includeDebug : Bool) : Except ε PipelineOutput := do
  let seed ← runTavilyPass p PassName.seed (buildSeedQueries input) searcher
  let expand ← runTavilyPass p PassName.expand
    (buildExpandQueries input seed.sources) searcher
  let authority ← runTavilyPass p PassName.authority
    (buildAuthorityQueries p input (seed.sources ++ expand.sources)) searcher
  let mergedSources := dedupeSourcesByUrl
    ((seed.sources ++ expand.sources ++ authority.sources).map some)
  let g := simpleGate p mergedSources input.outputLanguage
  let recommendationOrSafeDefault :=
    if g.decisionStatus = DecisionStatus.EVIDENCE_SUFFICIENT then
      buildRecommendationFromEvidence input mergedSources
    else buildSafeDefault input
  Except.ok
    { decisionStatus := g.decisionStatus
      recommendationOrSafeDefault := recommendationOrSafeDefault
      confidenceOverview := ⟨g.confidence, g.confidenceRationale⟩
      sources := mergedSources
      debug :=
        if includeDebug then some ⟨[seed.debug, expand.debug, authority.debug]⟩
        else none }

/-! ### Derived definitions used by the statements -/

/-- Concrete source used by witnesses: given url, other text fields empty. -/
def mkSource (url : Str) : Source :=
  { url := url, title := [], snippet := [], content := [] }

/-- First non-null entry of the list whose url equals `u` (the record that
first-seen-wins dedup must keep for `u`). -/
def firstSourceWithUrl (u : Str) : List (Option Source) → Option Source
  | [] => none
  | none :: rest => firstSourceWithUrl u rest
  | some s :: rest => if s.url = u then some s else firstSourceWithUrl u rest

/-- Source list of a pass outcome (empty when the pass failed). -/
def passSources {e : Type} (x : Except e PassResult) : List Source :=
  match x with
  | Except.ok r => r.sources
  | Except.error _ => []

/-- Source list of a pipeline outcome (empty when the run failed). -/
def pipelineSources {e : Type} (x : Except e PipelineOutput) : List Source :=
  match x with
  | Except.ok o => o.sources
  | Except.error _ => []

/-- Surviving tokens of keyword extraction: the split cleaned text with
short tokens and stop words discarded. -/
def keywordTokens (text : Str) : List Str :=
  (splitOnSpace (cleanKeywordText text)).filter
    (fun t => decide (4 ≤ t.length) && !(decide (t ∈ stopWords)))

/-- Keyword comparison induced on keys by the extractor comparator:
descending frequency in `toks`, ties broken by ascending lexicographic
order. -/
def keywordOrder (toks : List Str) (a b : Str) : Prop :=
  lePairB (a, toks.count a) (b, toks.count b) = true

instance (toks : List Str) : DecidableRel (keywordOrder toks) :=
  fun a b => inferInstanceAs (Decidable (lePairB (a, toks.count a) (b, toks.count b) = true))

/-! ### Helper lemmas: breadth gate -/

/-- Named breadth-sufficiency predicate on the two aggregate counts. -/
def breadthGatePasses (sourceCount domainCount : ℕ) : Prop :=
  6 ≤ sourceCount ∧ 4 ≤ domainCount

lemma simpleGate_pos (p : UrlParser) (sources : List Source) (lang : Option Lang)
    (h6 : 6 ≤ sources.length)
    (h4 : 4 ≤ uniqueDomainCount p (sources.map Source.url)) :
    (simpleGate p sources lang).decisionStatus = DecisionStatus.EVIDENCE_SUFFICIENT ∧
      (simpleGate p sources lang).confidence = 0.78 := by
  unfold simpleGate
  simp [h6, h4]

lemma simpleGate_neg (p : UrlParser) (sources : List Source) (lang : Option Lang)
    (h : ¬ (6 ≤ sources.length ∧ 4 ≤ uniqueDomainCount p (sources.map Source.url))) :
    (simpleGate p sources lang).decisionStatus = DecisionStatus.INSUFFICIENT_EVIDENCE ∧
      (simpleGate p sources lang).confidence = 0.32 := by
  unfold simpleGate
  by_cases h6 : 6 ≤ sources.length <;>
    by_cases h4 : 4 ≤ uniqueDomainCount p (sources.map Source.url) <;>
    simp [h6, h4] at h ⊢

lemma uniqueDomainCount_le_append (p : UrlParser) (a c : List Str) :
    uniqueDomainCount p a ≤ uniqueDomainCount p (a ++ c) := by
  unfold uniqueDomainCount
  apply Finset.card_le_card
  intro d hd
  simp only [List.map_append, List.filter_append, List.toFinset_append,
    Finset.mem_union]
  exact Or.inl hd

/-- Claim C1.  The breadth gate wired into the pipeline returns
EVIDENCE_SUFFICIENT with confidence exactly 0.78 iff the merged list holds
at least 6 sources over at least 4 unique domains (www-stripped hostnames,
malformed URLs excluded); otherwise INSUFFICIENT_EVIDENCE with confidence
exactly 0.32 < 0.5; in particular a merged run of a single source is judged
insufficient. -/
theorem claim_C1_breadth_gate (p : UrlParser) (sources : List Source) (lang : Option Lang) :
    (((simpleGate p sources lang).decisionStatus = DecisionStatus.EVIDENCE_SUFFICIENT ∧
        (simpleGate p sources lang).confidence = 0.78) ↔
      (6 ≤ sources.length ∧ 4 ≤ uniqueDomainCount p (sources.map Source.url)))
    ∧ (¬ (6 ≤ sources.length ∧ 4 ≤ uniqueDomainCount p (sources.map Source.url)) →
        (simpleGate p sources lang).decisionStatus = DecisionStatus.INSUFFICIENT_EVIDENCE ∧
        (simpleGate p sources lang).confidence = 0.32 ∧
        (simpleGate p sources lang).confidence < 1 / 2)
    ∧ (sources.length = 1 →
        (simpleGate p sources lang).decisionStatus = DecisionStatus.INSUFFICIENT_EVIDENCE ∧
        (simpleGate p sources lang).confidence < 1 / 2) := by
  refine ⟨⟨fun hpos => ?_, fun hcond => simpleGate_pos p sources lang hcond.1 hcond.2⟩,
    fun hneg => ?_, fun h1 => ?_⟩
  · by_contra hcond
    obtain ⟨hstat, hconf⟩ := simpleGate_neg p sources lang hcond
    rw [hstat] at hpos
    exact absurd hpos.1 (by simp)
  · obtain ⟨hstat, hconf⟩ := simpleGate_neg p sources lang hneg
    refine ⟨hstat, hconf, ?_⟩
    rw [hconf]; norm_num
  · have hneg : ¬ (6 ≤ sources.length ∧ 4 ≤ uniqueDomainCount p (sources.map Source.url)) := by
      rw [h1]; rintro ⟨h6, -⟩; omega
    obtain ⟨hstat, hconf⟩ := simpleGate_neg p sources lang hneg
    exact ⟨hstat, by rw [hconf]; norm_num⟩


/-- Claim C1 witness: a concrete evaluation of the gate at a 6-source,
4-domain list (sufficient) and at a singleton list (insufficient). -/
theorem claim_C1_breadth_gate_witness :
    (simpleGate (fun u => some u) [mkSource "a".toList, mkSource "b".toList,
        mkSource "c".toList, mkSource "d".toList,
        mkSource "e".toList, mkSource "f".toList] none).decisionStatus =
      DecisionStatus.EVIDENCE_SUFFICIENT ∧
    (simpleGate (fun u => some u) [mkSource "a".toList] none).decisionStatus =
      DecisionStatus.INSUFFICIENT_EVIDENCE ∧
    (simpleGate (fun u => some u) [mkSource "a".toList] none).confidence < 1 / 2 := by
  have h1 := (claim_C1_breadth_gate (fun u => some u) [mkSource "a".toList,
    mkSource "b".toList, mkSource "c".toList, mkSource "d".toList,
    mkSource "e".toList, mkSource "f".toList] none).1.2 (by decide)
  have h2 := (claim_C1_breadth_gate (fun u => some u)
    [mkSource "a".toList] none).2.2 (by decide)
  exact ⟨h1.1, h2.1, h2.2⟩

/-- Claim C9.  Breadth-gate monotonicity: the sufficiency decision is
equivalent to `breadthGatePasses` on (count, domainCount); that predicate is
monotone non-decreasing in both arguments; and extending a source list
(holding its members fixed) never turns a sufficient judgement
insufficient. -/
theorem claim_C9_gate_monotone (p : UrlParser) (a c : List Source) (lang : Option Lang) :
    (((simpleGate p a lang).decisionStatus = DecisionStatus.EVIDENCE_SUFFICIENT) ↔
      breadthGatePasses a.length (uniqueDomainCount p (a.map Source.url)))
    ∧ (∀ n₁ d₁ n₂ d₂ : ℕ, n₁ ≤ n₂ → d₁ ≤ d₂ →
        breadthGatePasses n₁ d₁ → breadthGatePasses n₂ d₂)
    ∧ ((simpleGate p a lang).decisionStatus = DecisionStatus.EVIDENCE_SUFFICIENT →
        (simpleGate p (a ++ c) lang).decisionStatus = DecisionStatus.EVIDENCE_SUFFICIENT) := by
  have link : ∀ l : List Source,
      ((simpleGate p l lang).decisionStatus = DecisionStatus.EVIDENCE_SUFFICIENT) ↔
        breadthGatePasses l.length (uniqueDomainCount p (l.map Source.url)) := by
    intro l
    constructor
    · intro hstat
      by_contra hcond
      have := (simpleGate_neg p l lang hcond).1
      rw [this] at hstat
      exact absurd hstat (by simp)
    · intro hcond
      exact (simpleGate_pos p l lang hcond.1 hcond.2).1
  refine ⟨link a, fun n₁ d₁ n₂ d₂ hn hd h => ⟨le_trans h.1 hn, le_trans h.2 hd⟩, fun hsuf => ?_⟩
  have ha := (link a).1 hsuf
  refine (link (a ++ c)).2 ⟨?_, ?_⟩
  · calc 6 ≤ a.length := ha.1
      _ ≤ (a ++ c).length := by simp
  · calc 4 ≤ uniqueDomainCount p (a.map Source.url) := ha.2
      _ ≤ uniqueDomainCount p (a.map Source.url ++ c.map Source.url) :=
        uniqueDomainCount_le_append p _ _
      _ = uniqueDomainCount p ((a ++ c).map Source.url) := by rw [List.map_append]

/-- Claim C9 witness: a sufficient 6-source list stays sufficient after
appending one more source. -/
theorem claim_C9_gate_monotone_witness :
    (simpleGate (fun u => some u) [mkSource "a".toList, mkSource "b".toList,
        mkSource "c".toList, mkSource "d".toList, mkSource "e".toList,
        mkSource "f".toList] none).decisionStatus = DecisionStatus.EVIDENCE_SUFFICIENT ∧
    (simpleGate (fun u => some u) ([mkSource "a".toList, mkSource "b".toList,
        mkSource "c".toList, mkSource "d".toList, mkSource "e".toList,
        mkSource "f".toList] ++ [mkSource "g".toList]) none).decisionStatus =
      DecisionStatus.EVIDENCE_SUFFICIENT := by
  have h := (claim_C9_gate_monotone (fun u => some u) [mkSource "a".toList,
    mkSource "b".toList, mkSource "c".toList, mkSource "d".toList, mkSource "e".toList,
    mkSource "f".toList] [mkSource "g".toList] none).2.2 (by decide)
  exact ⟨by decide, h⟩

/-! ### Helper lemmas: truncation -/

lemma length_dropWhile_le (f : Char → Bool) (l : Str) :
    (l.dropWhile f).length ≤ l.length := by
  induction l with
  | nil => simp
  | cons a l ih =>
    by_cases h : f a
    · simp only [List.dropWhile, h]
      exact le_trans ih (by simp)
    · simp [List.dropWhile, h]

lemma length_trimEndJs_le (l : Str) : (trimEndJs l).length ≤ l.length := by
  unfold trimEndJs
  rw [List.length_reverse]
  calc (l.reverse.dropWhile isJsWs).length ≤ l.reverse.length :=
        length_dropWhile_le _ _
    _ = l.length := List.length_reverse l

/-- Claim C3.  Truncation at the 400-character budget: lengths are reported
faithfully, `usedLength ≤ 400` always, `truncated` iff the normalized length
exceeds 400; an untruncated query is returned unchanged (normalized); a
truncated query is the trimmed 285-character head slice, the 3-character
elision marker and the trimmed 112-character tail slice, clipped to 400,
with `usedLength` strictly below `originalLength` and the marker present. -/
theorem claim_C3_truncation (query : Str) :
    (truncateTavilyQuery query 400).originalLength = (normalizeQuery query).length ∧
    (truncateTavilyQuery query 400).usedLength = (truncateTavilyQuery query 400).q.length ∧
    (truncateTavilyQuery query 400).usedLength ≤ 400 ∧
    ((truncateTavilyQuery query 400).truncated = true ↔
      400 < (truncateTavilyQuery query 400).originalLength) ∧
    ((truncateTavilyQuery query 400).truncated = false →
      (truncateTavilyQuery query 400).q = normalizeQuery query) ∧
    ((truncateTavilyQuery query 400).truncated = true →
      (truncateTavilyQuery query 400).q =
        (trimEndJs ((normalizeQuery query).take 285) ++ elisionMarker ++
          trimStartJs ((normalizeQuery query).drop ((normalizeQuery query).length - 112))).take 400 ∧
      (truncateTavilyQuery query 400).usedLength <
        (truncateTavilyQuery query 400).originalLength ∧
      elisionMarker <:+: (truncateTavilyQuery query 400).q) := by
  by_cases hle : (normalizeQuery query).length ≤ 400
  · have hr : truncateTavilyQuery query 400 =
        ⟨normalizeQuery query, false, (normalizeQuery query).length,
          (normalizeQuery query).length, fnv1a (normalizeQuery query)⟩ := by
      unfold truncateTavilyQuery
      rw [if_pos hle]
    rw [hr]
    exact ⟨rfl, rfl, hle, by simp; omega, fun _ => rfl, fun hcontra => by simp at hcontra⟩
  · have hgt : 400 < (normalizeQuery query).length := by omega
    have hr : truncateTavilyQuery query 400 =
        ⟨(trimEndJs ((normalizeQuery query).take 285) ++ elisionMarker ++
            trimStartJs ((normalizeQuery query).drop ((normalizeQuery query).length - 112))).take 400,
          true, (normalizeQuery query).length,
          ((trimEndJs ((normalizeQuery query).take 285) ++ elisionMarker ++
            trimStartJs ((normalizeQuery query).drop ((normalizeQuery query).length - 112))).take 400).length,
          fnv1a (normalizeQuery query)⟩ := by
      unfold truncateTavilyQuery
      rw [if_neg hle]
      rfl
    rw [hr]
    set q0 := normalizeQuery query with hq0
    set head := trimEndJs (q0.take 285) with hhd
    set tail := trimStartJs (q0.drop (q0.length - 112)) with htl
    have hheadlen : head.length ≤ 285 := by
      calc head.length ≤ (q0.take 285).length := length_trimEndJs_le _
        _ ≤ 285 := by rw [List.length_take]; omega
    have hm : elisionMarker.length = 3 := rfl
    have hq : ((head ++ elisionMarker ++ tail).take 400) =
        head ++ elisionMarker ++ tail.take (400 - head.length - 3) := by
      rw [List.append_assoc, List.take_append_eq_append_take,
        List.take_of_length_le (by omega : head.length ≤ 400),
        List.take_append_eq_append_take,
        List.take_of_length_le (by rw [hm]; omega : elisionMarker.length ≤ 400 - head.length),
        hm, List.append_assoc]
    refine ⟨rfl, rfl, ?_, by simp [hgt], fun hcontra => by simp at hcontra,
      fun _ => ⟨rfl, ?_, ?_⟩⟩
    · show ((head ++ elisionMarker ++ tail).take 400).length ≤ 400
      rw [List.length_take]; omega
    · show ((head ++ elisionMarker ++ tail).take 400).length < q0.length
      rw [List.length_take]
      have : min 400 (head ++ elisionMarker ++ tail).length ≤ 400 := min_le_left _ _
      omega
    · exact ⟨head, tail.take (400 - head.length - 3), by rw [hq, List.append_assoc]⟩

set_option maxRecDepth 8000 in
/-- Claim C3 witness: a 500-character query is truncated to 400 characters
with the marker present and a strict length drop. -/
theorem claim_C3_truncation_witness :
    (truncateTavilyQuery (List.replicate 500 'x') 400).truncated = true ∧
    (truncateTavilyQuery (List.replicate 500 'x') 400).usedLength ≤ 400 ∧
    (truncateTavilyQuery (List.replicate 500 'x') 400).usedLength <
      (truncateTavilyQuery (List.replicate 500 'x') 400).originalLength ∧
    elisionMarker <:+: (truncateTavilyQuery (List.replicate 500 'x') 400).q := by
  have h := claim_C3_truncation (List.replicate 500 'x')
  have htr : (truncateTavilyQuery (List.replicate 500 'x') 400).truncated = true := by decide
  obtain ⟨-, -, hle, -, -, hx⟩ := h
  obtain ⟨-, hlt, hinf⟩ := hx htr
  exact ⟨htr, hle, hlt, hinf⟩

lemma truncateTavilyQuery_hash (q : Str) (maxLen : ℕ) :
    (truncateTavilyQuery q maxLen).hash = fnv1a (normalizeQuery q) := by
  unfold truncateTavilyQuery
  by_cases h : (normalizeQuery q).length ≤ maxLen
  · rw [if_pos h]
  · rw [if_neg h]

/-- Claim C4 (code bug).  The hash field is stable across the truncation
decision (always computed on the normalized untruncated string, for every
query and budget), but it is not the 32-bit FNV-1a hash the claim and the
function name describe: the JavaScript multiplication by 0x01000193
overflows double precision, so low bits are rounded away.  On the
one-character query c the code yields fnv1a32:e60c2c50 while true FNV-1a
yields fnv1a32:e60c2c52. -/
theorem claim_C4_hash_is_not_fnv1a :
    (∀ (q : Str) (maxLen : ℕ),
      (truncateTavilyQuery q maxLen).hash = fnv1a (normalizeQuery q)) ∧
    fnv1a "c".toList ≠ fnv1aSpec "c".toList ∧
    fnv1aNum "c".toList = 0xe60c2c50 ∧
    fnv1aSpecNum "c".toList = 0xe60c2c52 := by
  exact ⟨truncateTavilyQuery_hash, by decide, by decide, by decide⟩

/-! ### Helper lemmas: dedup -/

lemma mem_dedupeAux_iff (l : List (Option Source)) :
    ∀ (seen : List Str) (s : Source),
      s ∈ dedupeSourcesByUrlAux seen l ↔
        (s.url ∉ seen ∧ s.url ≠ [] ∧ firstSourceWithUrl s.url l = some s) := by
  induction l with
  | nil => intro seen s; simp [dedupeSourcesByUrlAux, firstSourceWithUrl]
  | cons o rest ih =>
    intro seen s
    match o with
    | none =>
      simp only [dedupeSourcesByUrlAux, firstSourceWithUrl]
      exact ih seen s
    | some t =>
      simp only [dedupeSourcesByUrlAux, firstSourceWithUrl]
      by_cases ht0 : t.url = []
      · rw [if_pos ht0, ih seen s]
        constructor
        · rintro ⟨h1, h2, h3⟩
          refine ⟨h1, h2, ?_⟩
          rw [if_neg (fun hts => h2 (hts.symm.trans ht0))]
          exact h3
        · rintro ⟨h1, h2, h3⟩
          rw [if_neg (fun hts => h2 (hts.symm.trans ht0))] at h3
          exact ⟨h1, h2, h3⟩
      · by_cases hts : t.url ∈ seen
        · rw [if_neg ht0, if_pos hts, ih seen s]
          constructor
          · rintro ⟨h1, h2, h3⟩
            refine ⟨h1, h2, ?_⟩
            rw [if_neg (fun (he : t.url = s.url) => h1 (he ▸ hts))]
            exact h3
          · rintro ⟨h1, h2, h3⟩
            rw [if_neg (fun (he : t.url = s.url) => h1 (he ▸ hts))] at h3
            exact ⟨h1, h2, h3⟩
        · rw [if_neg ht0, if_neg hts]
          rw [List.mem_cons, ih (t.url :: seen) s]
          constructor
          · rintro (rfl | ⟨h1, h2, h3⟩)
            · exact ⟨hts, ht0, by rw [if_pos rfl]⟩
            · have hne : t.url ≠ s.url := fun he =>
                h1 (he ▸ List.mem_cons_self t.url seen)
              refine ⟨fun hseen => h1 (List.mem_cons_of_mem _ hseen), h2, ?_⟩
              rw [if_neg hne]
              exact h3
          · rintro ⟨h1, h2, h3⟩
            by_cases he : t.url = s.url
            · rw [if_pos he] at h3
              exact Or.inl (Option.some.inj h3).symm
            · rw [if_neg he] at h3
              refine Or.inr ⟨?_, h2, h3⟩
              intro hmem
              rcases List.mem_cons.mp hmem with h | h
              · exact he h.symm
              · exact h1 h

lemma dedupeAux_url_nodup (l : List (Option Source)) :
    ∀ seen : List Str, ((dedupeSourcesByUrlAux seen l).map Source.url).Nodup := by
  induction l with
  | nil => intro seen; simp [dedupeSourcesByUrlAux]
  | cons o rest ih =>
    intro seen
    match o with
    | none => exact ih seen
    | some t =>
      simp only [dedupeSourcesByUrlAux]
      by_cases ht0 : t.url = []
      · rw [if_pos ht0]; exact ih seen
      · by_cases hts : t.url ∈ seen
        · rw [if_neg ht0, if_pos hts]; exact ih seen
        · rw [if_neg ht0, if_neg hts]
          simp only [List.map_cons, List.nodup_cons]
          refine ⟨?_, ih (t.url :: seen)⟩
          intro hmem
          obtain ⟨s, hs, hurl⟩ := List.mem_map.mp hmem
          have := ((mem_dedupeAux_iff rest (t.url :: seen) s).mp hs).1
          exact this (hurl ▸ List.mem_cons_self t.url seen)

lemma dedupeAux_sublist (l : List (Option Source)) :
    ∀ seen : List Str, (dedupeSourcesByUrlAux seen l).Sublist (l.filterMap id) := by
  induction l with
  | nil => intro seen; simp [dedupeSourcesByUrlAux]
  | cons o rest ih =>
    intro seen
    match o with
    | none => simpa [dedupeSourcesByUrlAux] using ih seen
    | some t =>
      simp only [dedupeSourcesByUrlAux, List.filterMap_cons_some, id]
      by_cases ht0 : t.url = []
      · rw [if_pos ht0]; exact (ih seen).cons t
      · by_cases hts : t.url ∈ seen
        · rw [if_neg ht0, if_pos hts]; exact (ih seen).cons t
        · rw [if_neg ht0, if_neg hts]; exact (ih (t.url :: seen)).cons₂ t

lemma firstSourceWithUrl_of_mem (l : List (Option Source)) (s : Source)
    (hs : some s ∈ l) :
    ∃ t, firstSourceWithUrl s.url l = some t ∧ t.url = s.url := by
  induction l with
  | nil => cases hs
  | cons o rest ih =>
    rcases List.mem_cons.mp hs with h | h
    · subst h
      exact ⟨s, by rw [firstSourceWithUrl, if_pos rfl], rfl⟩
    · match o with
      | none => simpa [firstSourceWithUrl] using ih h
      | some t =>
        by_cases he : t.url = s.url
        · exact ⟨t, by rw [firstSourceWithUrl, if_pos he], he⟩
        · simpa [firstSourceWithUrl, he] using ih h

lemma dedupe_mem_iff (l : List (Option Source)) (s : Source) :
    s ∈ dedupeSourcesByUrl l ↔ (s.url ≠ [] ∧ firstSourceWithUrl s.url l = some s) := by
  rw [dedupeSourcesByUrl, mem_dedupeAux_iff]
  simp

lemma count_eq_one_of_nodup_mem {u : Str} {l : List Str} (hn : l.Nodup)
    (hm : u ∈ l) : l.count u = 1 := by
  induction l with
  | nil => cases hm
  | cons a l ih =>
    rw [List.nodup_cons] at hn
    rw [List.count_cons]
    rcases List.mem_cons.mp hm with rfl | h
    · rw [List.count_eq_zero.mpr hn.1]
      simp
    · rw [ih hn.2 h, if_neg ?_]
      intro he
      rw [beq_iff_eq] at he
      exact hn.1 (he ▸ h)

lemma dedupe_count_one (l : List (Option Source)) (u : Str) (hu : u ≠ [])
    (hex : ∃ s, some s ∈ l ∧ s.url = u) :
    ((dedupeSourcesByUrl l).map Source.url).count u = 1 := by
  obtain ⟨s, hmem, hurl⟩ := hex
  obtain ⟨t, hfirst, hturl⟩ := firstSourceWithUrl_of_mem l s hmem
  rw [hurl] at hfirst hturl
  have htmem : t ∈ dedupeSourcesByUrl l := by
    rw [dedupe_mem_iff]
    refine ⟨hturl.symm ▸ hu, ?_⟩
    rw [hturl]
    exact hfirst
  have humem : u ∈ (dedupeSourcesByUrl l).map Source.url :=
    List.mem_map.mpr ⟨t, htmem, hturl⟩
  exact count_eq_one_of_nodup_mem (dedupeAux_url_nodup l []) humem

/-! ### Helper lemmas: pass runner and pipeline inversion -/

lemma runTavilyPass_ok_elim {ε : Type} (p : UrlParser) (pn : PassName)
    (qs : List Str) (searcher : Searcher ε) (r : PassResult)
    (h : runTavilyPass p pn qs searcher = Except.ok r) :
    ∃ qd srcs, runQueriesAux searcher qs = Except.ok (qd, srcs) ∧
      r.sources = dedupeSourcesByUrl srcs := by
  unfold runTavilyPass at h
  cases hq : runQueriesAux searcher qs with
  | error e =>
    rw [hq] at h
    simp [Bind.bind, Except.bind] at h
  | ok v =>
    obtain ⟨qd, srcs⟩ := v
    rw [hq] at h
    simp only [Bind.bind, Except.bind, Except.ok.injEq] at h
    exact ⟨qd, srcs, rfl, by rw [← h]⟩

lemma pipeline_ok_elim {ε : Type} (p : UrlParser) (input : PipelineInput)
    (searcher : Searcher ε) (includeDebug : Bool) (out : PipelineOutput)
    (h : runResearchPipeline p input searcher includeDebug = Except.ok out) :
    ∃ r1 r2 r3 : PassResult,
      runTavilyPass p PassName.seed (buildSeedQueries input) searcher = Except.ok r1 ∧
      runTavilyPass p PassName.expand (buildExpandQueries input r1.sources) searcher =
        Except.ok r2 ∧
      runTavilyPass p PassName.authority
        (buildAuthorityQueries p input (r1.sources ++ r2.sources)) searcher = Except.ok r3 ∧
      out.sources = dedupeSourcesByUrl ((r1.sources ++ r2.sources ++ r3.sources).map some) ∧
      out.decisionStatus = (simpleGate p out.sources input.outputLanguage).decisionStatus ∧
      out.confidenceOverview.overall = (simpleGate p out.sources input.outputLanguage).confidence := by
  unfold runResearchPipeline at h
  cases h1 : runTavilyPass p PassName.seed (buildSeedQueries input) searcher with
  | error e =>
    rw [h1] at h
    simp [Bind.bind, Except.bind] at h
  | ok r1 =>
    rw [h1] at h
    simp only [Bind.bind, Except.bind] at h
    cases h2 : runTavilyPass p PassName.expand (buildExpandQueries input r1.sources) searcher with
    | error e =>
      rw [h2] at h
      simp [Except.bind] at h
    | ok r2 =>
      rw [h2] at h
      simp only [Except.bind] at h
      cases h3 : runTavilyPass p PassName.authority
          (buildAuthorityQueries p input (r1.sources ++ r2.sources)) searcher with
      | error e =>
        rw [h3] at h
        simp [Except.bind] at h
      | ok r3 =>
        rw [h3] at h
        simp only [Except.bind, Except.ok.injEq] at h
        refine ⟨r1, r2, r3, rfl, h2, h3, ?_, ?_, ?_⟩ <;> rw [← h]

/-- Claim C2.  URL dedup invariant: the deduped list has pairwise-distinct
urls; membership is exactly "first non-null entry with that url, url
non-empty" (so the first record wins with none of its fields merged); output
order is first-seen order (a sublist of the null-stripped input); a url that
occurs anywhere appears exactly once; and every successful pipeline run has
pairwise-distinct source urls with `out.sources` equal to the first-seen
dedup of the concatenation of the three pass results. -/
theorem claim_C2_url_dedup :
    (∀ l : List (Option Source), ((dedupeSourcesByUrl l).map Source.url).Nodup) ∧
    (∀ (l : List (Option Source)) (s : Source),
      s ∈ dedupeSourcesByUrl l ↔ (s.url ≠ [] ∧ firstSourceWithUrl s.url l = some s)) ∧
    (∀ l : List (Option Source), (dedupeSourcesByUrl l).Sublist (l.filterMap id)) ∧
    (∀ (l : List (Option Source)) (u : Str), u ≠ [] → (∃ s, some s ∈ l ∧ s.url = u) →
      ((dedupeSourcesByUrl l).map Source.url).count u = 1) ∧
    (∀ (ε : Type) (p : UrlParser) (input : PipelineInput) (searcher : Searcher ε)
        (includeDebug : Bool) (out : PipelineOutput),
      runResearchPipeline p input searcher includeDebug = Except.ok out →
        (out.sources.map Source.url).Nodup ∧
        ∃ r1 r2 r3 : PassResult,
          runTavilyPass p PassName.seed (buildSeedQueries input) searcher = Except.ok r1 ∧
          runTavilyPass p PassName.expand (buildExpandQueries input r1.sources) searcher =
            Except.ok r2 ∧
          runTavilyPass p PassName.authority
            (buildAuthorityQueries p input (r1.sources ++ r2.sources)) searcher =
            Except.ok r3 ∧
          out.sources = dedupeSourcesByUrl
            ((r1.sources ++ r2.sources ++ r3.sources).map some)) := by
  refine ⟨fun l => dedupeAux_url_nodup l [], dedupe_mem_iff,
    fun l => dedupeAux_sublist l [], dedupe_count_one, ?_⟩
  intro ε p input searcher includeDebug out h
  obtain ⟨r1, r2, r3, h1, h2, h3, hsrc, -, -⟩ :=
    pipeline_ok_elim p input searcher includeDebug out h
  refine ⟨?_, r1, r2, r3, h1, h2, h3, hsrc⟩
  rw [hsrc]
  exact dedupeAux_url_nodup _ []

/-- Claim C2 witness: on a list holding the same url twice (plus a null
entry), dedup keeps it once; a minimal successful pipeline run has
pairwise-distinct source urls. -/
theorem claim_C2_url_dedup_witness :
    ((dedupeSourcesByUrl [some (mkSource "u".toList), none,
        some (mkSource "u".toList), some (mkSource "v".toList)]).map Source.url).count
      "u".toList = 1 ∧
    (mkSource "u".toList) ∈ dedupeSourcesByUrl [some (mkSource "u".toList), none,
        some (mkSource "u".toList), some (mkSource "v".toList)] ∧
    (({ decisionStatus := DecisionStatus.INSUFFICIENT_EVIDENCE,
        recommendationOrSafeDefault :=
          buildSafeDefault { goal := [], decision := [], outputFormat := [] },
        confidenceOverview :=
          ⟨0.32, "Onvoldoende breedte: 0 bronnen over 0 domeinen.".toList⟩,
        sources := [],
        debug := none } : PipelineOutput).sources.map Source.url).Nodup := by
  have hcount := claim_C2_url_dedup.2.2.2.1
    [some (mkSource "u".toList), none, some (mkSource "u".toList),
      some (mkSource "v".toList)] "u".toList (by decide)
    ⟨mkSource "u".toList, by decide, rfl⟩
  have hmem := (claim_C2_url_dedup.2.1 [some (mkSource "u".toList), none,
    some (mkSource "u".toList), some (mkSource "v".toList)] (mkSource "u".toList)).mpr
    (by decide)
  have hout : runResearchPipeline (fun _ => none)
      { goal := [], decision := [], outputFormat := [] }
      (fun _ => (Except.ok [] : Except Nat (List (Option Source)))) false =
      Except.ok
        { decisionStatus := DecisionStatus.INSUFFICIENT_EVIDENCE,
          recommendationOrSafeDefault :=
            buildSafeDefault { goal := [], decision := [], outputFormat := [] },
          confidenceOverview :=
            ⟨0.32, "Onvoldoende breedte: 0 bronnen over 0 domeinen.".toList⟩,
          sources := [],
          debug := none } := by rfl
  have hpipe := (claim_C2_url_dedup.2.2.2.2 Nat (fun _ => none)
    { goal := [], decision := [], outputFormat := [] }
    (fun _ => Except.ok []) false _ hout).1
  exact ⟨hcount, hmem, hpipe⟩

/-- Claim C10.  Null entries and entries with an empty url are silently
dropped by dedup: dropping them is an identity on the result, every kept
source is a non-null input entry with a non-empty url, and hence every
source in a per-pass result and in the pipeline output has a non-empty url;
no failure arises from such entries (dedup is total and pass/pipeline
errors come only from the searcher). -/
theorem claim_C10_null_entries_dropped :
    (∀ l : List (Option Source),
      dedupeSourcesByUrl (none :: l) = dedupeSourcesByUrl l) ∧
    (∀ (l : List (Option Source)) (s : Source), s.url = [] →
      dedupeSourcesByUrl (some s :: l) = dedupeSourcesByUrl l) ∧
    (∀ (l : List (Option Source)) (s : Source),
      s ∈ dedupeSourcesByUrl l → s.url ≠ [] ∧ some s ∈ l) ∧
    (∀ (ε : Type) (p : UrlParser) (pn : PassName) (qs : List Str)
        (searcher : Searcher ε) (r : PassResult),
      runTavilyPass p pn qs searcher = Except.ok r →
        ∀ s ∈ r.sources, s.url ≠ []) ∧
    (∀ (ε : Type) (p : UrlParser) (input : PipelineInput) (searcher : Searcher ε)
        (includeDebug : Bool) (out : PipelineOutput),
      runResearchPipeline p input searcher includeDebug = Except.ok out →
        ∀ s ∈ out.sources, s.url ≠ []) := by
  have hmem : ∀ (l : List (Option Source)) (s : Source),
      s ∈ dedupeSourcesByUrl l → s.url ≠ [] ∧ some s ∈ l := by
    intro l s hs
    have h := (dedupe_mem_iff l s).mp hs
    refine ⟨h.1, ?_⟩
    have hsub := dedupeAux_sublist l []
    have : s ∈ l.filterMap id := hsub.mem hs
    rcases List.mem_filterMap.mp this with ⟨o, ho, hid⟩
    cases o with
    | none => cases hid
    | some t => cases hid; exact ho
  refine ⟨fun l => rfl, ?_, hmem, ?_, ?_⟩
  · intro l s hs
    show dedupeSourcesByUrlAux [] (some s :: l) = dedupeSourcesByUrlAux [] l
    simp only [dedupeSourcesByUrlAux]
    rw [if_pos hs]
  · intro ε p pn qs searcher r h s hs
    obtain ⟨qd, srcs, -, hsrc⟩ := runTavilyPass_ok_elim p pn qs searcher r h
    rw [hsrc] at hs
    exact (hmem _ _ hs).1
  · intro ε p input searcher includeDebug out h s hs
    obtain ⟨r1, r2, r3, -, -, -, hsrc, -, -⟩ :=
      pipeline_ok_elim p input searcher includeDebug out h
    rw [hsrc] at hs
    exact (hmem _ _ hs).1

/-- Claim C10 witness: a null entry and an empty-url source are dropped from
a concrete list, and the surviving source (a member of the dedup result) has
a non-empty url. -/
theorem claim_C10_null_entries_dropped_witness :
    dedupeSourcesByUrl [none, some (mkSource "u".toList)] =
      dedupeSourcesByUrl [some (mkSource "u".toList)] ∧
    dedupeSourcesByUrl [some (mkSource []), some (mkSource "u".toList)] =
      dedupeSourcesByUrl [some (mkSource "u".toList)] ∧
    (mkSource "u".toList).url ≠ [] := by
  refine ⟨claim_C10_null_entries_dropped.1 [some (mkSource "u".toList)],
    claim_C10_null_entries_dropped.2.1 [some (mkSource "u".toList)] (mkSource []) rfl,
    (claim_C10_null_entries_dropped.2.2.1 [some (mkSource "u".toList)]
      (mkSource "u".toList) (by decide)).1⟩

/-- Claim C7.  Determinism: the pipeline is a pure function of its input and
the injected searcher, so two runs against pointwise-equal (deterministic)
searchers produce identical outputs — same decision, recommendation,
confidence, rationale, source order, and debug records. -/
theorem claim_C7_determinism {ε : Type} (p : UrlParser) (input : PipelineInput)
    (s₁ s₂ : Searcher ε) (includeDebug : Bool) (h : ∀ q, s₁ q = s₂ q) :
    runResearchPipeline p input s₁ includeDebug =
      runResearchPipeline p input s₂ includeDebug := by
  have : s₁ = s₂ := funext h
  rw [this]

/-- Claim C7 witness: two runs against the same constant searcher agree. -/
theorem claim_C7_determinism_witness :
    runResearchPipeline (fun _ => none)
        { goal := "g".toList, decision := "d".toList, outputFormat := [] }
        (fun _ => (Except.ok [some (mkSource "u".toList)] :
          Except Nat (List (Option Source)))) true =
      runResearchPipeline (fun _ => none)
        { goal := "g".toList, decision := "d".toList, outputFormat := [] }
        (fun _ => Except.ok [some (mkSource "u".toList)]) true :=
  claim_C7_determinism (fun _ => none)
    { goal := "g".toList, decision := "d".toList, outputFormat := [] }
    (fun _ => Except.ok [some (mkSource "u".toList)])
    (fun _ => Except.ok [some (mkSource "u".toList)]) true (fun _ => rfl)

/-! ### Helper lemmas: error propagation -/

lemma runQueriesAux_ok_all {ε : Type} (searcher : Searcher ε) (qs : List Str) :
    ∀ qd srcs, runQueriesAux searcher qs = Except.ok (qd, srcs) →
      ∀ raw ∈ qs, ∃ v, searcher (truncateTavilyQuery raw TAVILY_QUERY_MAX).q = Except.ok v := by
  induction qs with
  | nil => simp
  | cons q qs ih =>
    intro qd srcs h raw hraw
    cases hs : searcher (truncateTavilyQuery q TAVILY_QUERY_MAX).q with
    | error e =>
      rw [runQueriesAux, hs] at h
      simp [Bind.bind, Except.bind] at h
    | ok v =>
      rcases List.mem_cons.mp hraw with rfl | hmem
      · exact ⟨v, hs⟩
      · cases hrec : runQueriesAux searcher qs with
        | error e =>
          rw [runQueriesAux, hs, hrec] at h
          simp [Bind.bind, Except.bind] at h
        | ok pr =>
          exact ih pr.1 pr.2 (by rw [hrec]) raw hmem

lemma runQueriesAux_err {ε : Type} (searcher : Searcher ε) (qs₁ : List Str)
    (raw : Str) (qs₂ : List Str) (e : ε)
    (hpre : ∀ r ∈ qs₁, ∃ v, searcher (truncateTavilyQuery r TAVILY_QUERY_MAX).q = Except.ok v)
    (herr : searcher (truncateTavilyQuery raw TAVILY_QUERY_MAX).q = Except.error e) :
    runQueriesAux searcher (qs₁ ++ raw :: qs₂) = Except.error e := by
  induction qs₁ with
  | nil =>
    rw [List.nil_append, runQueriesAux, herr]
    rfl
  | cons q qs₁ ih =>
    obtain ⟨v, hv⟩ := hpre q (List.mem_cons_self q qs₁)
    have hrec := ih (fun r hr => hpre r (List.mem_cons_of_mem q hr))
    rw [List.cons_append, runQueriesAux, hv, hrec]
    rfl

lemma runTavilyPass_err {ε : Type} (p : UrlParser) (pn : PassName) (qs : List Str)
    (searcher : Searcher ε) (e : ε)
    (h : runQueriesAux searcher qs = Except.error e) :
    runTavilyPass p pn qs searcher = Except.error e := by
  unfold runTavilyPass
  rw [h]
  rfl

lemma pipeline_err_seed {ε : Type} (p : UrlParser) (input : PipelineInput)
    (searcher : Searcher ε) (includeDebug : Bool) (e : ε)
    (h : runTavilyPass p PassName.seed (buildSeedQueries input) searcher = Except.error e) :
    runResearchPipeline p input searcher includeDebug = Except.error e := by
  unfold runResearchPipeline
  rw [h]
  rfl

lemma except_bind_ok {α β : Type} {ε : Type} (a : α) (f : α → Except ε β) :
    (Except.ok a : Except ε α) >>= f = f a := rfl

lemma except_bind_err {α β : Type} {ε : Type} (e : ε) (f : α → Except ε β) :
    (Except.error e : Except ε α) >>= f = Except.error e := rfl

lemma pipeline_err_expand {ε : Type} (p : UrlParser) (input : PipelineInput)
    (searcher : Searcher ε) (includeDebug : Bool) (e : ε) (r₁ : PassResult)
    (h₁ : runTavilyPass p PassName.seed (buildSeedQueries input) searcher = Except.ok r₁)
    (h : runTavilyPass p PassName.expand (buildExpandQueries input r₁.sources) searcher =
      Except.error e) :
    runResearchPipeline p input searcher includeDebug = Except.error e := by
  unfold runResearchPipeline
  simp only [h₁, except_bind_ok]
  rw [h]
  rfl

lemma pipeline_err_authority {ε : Type} (p : UrlParser) (input : PipelineInput)
    (searcher : Searcher ε) (includeDebug : Bool) (e : ε) (r₁ r₂ : PassResult)
    (h₁ : runTavilyPass p PassName.seed (buildSeedQueries input) searcher = Except.ok r₁)
    (h₂ : runTavilyPass p PassName.expand (buildExpandQueries input r₁.sources) searcher =
      Except.ok r₂)
    (h : runTavilyPass p PassName.authority
      (buildAuthorityQueries p input (r₁.sources ++ r₂.sources)) searcher = Except.error e) :
    runResearchPipeline p input searcher includeDebug = Except.error e := by
  unfold runResearchPipeline
  simp only [h₁, h₂, except_bind_ok]
  rw [h]
  rfl

/-- Claim C8.  All-or-nothing failure: a pass that returns a result implies
every one of its (truncated) queries searched successfully; the first
searcher failure inside a pass aborts the pass with that error; a failing
seed, expand or authority pass aborts the whole pipeline with that error;
and a successful pipeline implies all three passes returned results — no
partial pass result or partial output is ever produced. -/
theorem claim_C8_failure_propagation :
    (∀ (ε : Type) (p : UrlParser) (pn : PassName) (qs : List Str)
        (searcher : Searcher ε) (r : PassResult),
      runTavilyPass p pn qs searcher = Except.ok r →
        ∀ raw ∈ qs, ∃ v,
          searcher (truncateTavilyQuery raw TAVILY_QUERY_MAX).q = Except.ok v) ∧
    (∀ (ε : Type) (p : UrlParser) (pn : PassName) (qs₁ : List Str) (raw : Str)
        (qs₂ : List Str) (searcher : Searcher ε) (e : ε),
      (∀ r ∈ qs₁, ∃ v, searcher (truncateTavilyQuery r TAVILY_QUERY_MAX).q = Except.ok v) →
      searcher (truncateTavilyQuery raw TAVILY_QUERY_MAX).q = Except.error e →
        runTavilyPass p pn (qs₁ ++ raw :: qs₂) searcher = Except.error e) ∧
    (∀ (ε : Type) (p : UrlParser) (input : PipelineInput) (searcher : Searcher ε)
        (includeDebug : Bool) (e : ε),
      runTavilyPass p PassName.seed (buildSeedQueries input) searcher = Except.error e →
        runResearchPipeline p input searcher includeDebug = Except.error e) ∧
    (∀ (ε : Type) (p : UrlParser) (input : PipelineInput) (searcher : Searcher ε)
        (includeDebug : Bool) (e : ε) (r₁ : PassResult),
      runTavilyPass p PassName.seed (buildSeedQueries input) searcher = Except.ok r₁ →
      runTavilyPass p PassName.expand (buildExpandQueries input r₁.sources) searcher =
        Except.error e →
        runResearchPipeline p input searcher includeDebug = Except.error e) ∧
    (∀ (ε : Type) (p : UrlParser) (input : PipelineInput) (searcher : Searcher ε)
        (includeDebug : Bool) (e : ε) (r₁ r₂ : PassResult),
      runTavilyPass p PassName.seed (buildSeedQueries input) searcher = Except.ok r₁ →
      runTavilyPass p PassName.expand (buildExpandQueries input r₁.sources) searcher =
        Except.ok r₂ →
      runTavilyPass p PassName.authority
        (buildAuthorityQueries p input (r₁.sources ++ r₂.sources)) searcher =
        Except.error e →
        runResearchPipeline p input searcher includeDebug = Except.error e) ∧
    (∀ (ε : Type) (p : UrlParser) (input : PipelineInput) (searcher : Searcher ε)
        (includeDebug : Bool) (out : PipelineOutput),
      runResearchPipeline p input searcher includeDebug = Except.ok out →
        ∃ r1 r2 r3 : PassResult,
          runTavilyPass p PassName.seed (buildSeedQueries input) searcher = Except.ok r1 ∧
          runTavilyPass p PassName.expand (buildExpandQueries input r1.sources) searcher =
            Except.ok r2 ∧
          runTavilyPass p PassName.authority
            (buildAuthorityQueries p input (r1.sources ++ r2.sources)) searcher =
            Except.ok r3) := by
  refine ⟨?_, ?_, fun _ => pipeline_err_seed, fun _ => pipeline_err_expand,
    fun _ => pipeline_err_authority, ?_⟩
  · intro ε p pn qs searcher r h raw hraw
    obtain ⟨qd, srcs, hq, -⟩ := runTavilyPass_ok_elim p pn qs searcher r h
    exact runQueriesAux_ok_all searcher qs qd srcs hq raw hraw
  · intro ε p pn qs₁ raw qs₂ searcher e hpre herr
    exact runTavilyPass_err p pn _ searcher e (runQueriesAux_err searcher qs₁ raw qs₂ e hpre herr)
  · intro ε p input searcher includeDebug out h
    obtain ⟨r1, r2, r3, h1, h2, h3, -⟩ :=
      pipeline_ok_elim p input searcher includeDebug out h
    exact ⟨r1, r2, r3, h1, h2, h3⟩

/-- Claim C8 witness: with a searcher that always fails with error 7, a
single-query pass fails with error 7 and a concrete pipeline run fails with
error 7; no output is produced. -/
theorem claim_C8_failure_propagation_witness :
    runTavilyPass (fun _ => none) PassName.seed ("q".toList :: [])
        (fun _ => (Except.error 7 : Except Nat (List (Option Source)))) =
      Except.error 7 ∧
    runResearchPipeline (fun _ => none)
        { goal := "g".toList, decision := "d".toList, outputFormat := [] }
        (fun _ => (Except.error 7 : Except Nat (List (Option Source)))) false =
      Except.error 7 := by
  constructor
  · have h := claim_C8_failure_propagation.2.1 Nat (fun _ => none) PassName.seed
      [] "q".toList [] (fun _ => Except.error 7) 7
      (fun r hr => absurd hr (List.not_mem_nil r)) rfl
    exact h
  · exact claim_C8_failure_propagation.2.2.1 Nat (fun _ => none)
      { goal := "g".toList, decision := "d".toList, outputFormat := [] }
      (fun _ => Except.error 7) false 7 (by rfl)

/-! ### Helper lemmas: scored gate -/

lemma scored_map_url (sources : List Source) :
    (sources.map (fun s =>
      { s with score := some (scoreOne s).1,
               scoreBreakdown := some (scoreOne s).2 })).map Source.url =
      sources.map Source.url := by
  rw [List.map_map]
  rfl

/-- Claim C5.  The scored gate scores every source with the weighted
snippet/content formula (breakdown retained), its metrics are the source
count, the unique-domain count, the average of the formula scores and the
low-information ratio of the input list, its maximal score is reported as
top-1, and it passes iff all six thresholds hold; on the empty list the
low-information ratio is 1 and the gate does not pass. -/
theorem claim_C5_scored_gate (p : UrlParser) (sources : List Source) :
    (∀ s ∈ (scoreSourcesAndGate p sources).scored,
      s.score = some (0.45 * clamp (((trimJs s.snippet).length : ℚ) / 300) +
        0.55 * clamp (((trimJs s.content).length : ℚ) / 2500)) ∧
      s.scoreBreakdown = some ⟨clamp (((trimJs s.snippet).length : ℚ) / 300),
        clamp (((trimJs s.content).length : ℚ) / 2500)⟩) ∧
    (scoreSourcesAndGate p sources).metrics.sources = sources.length ∧
    (scoreSourcesAndGate p sources).metrics.uniqueDomains =
      uniqueDomainsScored p (sources.map Source.url) ∧
    (scoreSourcesAndGate p sources).metrics.avgScore =
      (if sources.length = 0 then 0
       else (sources.map (fun s => 0.45 * clamp (((trimJs s.snippet).length : ℚ) / 300) +
         0.55 * clamp (((trimJs s.content).length : ℚ) / 2500))).sum / sources.length) ∧
    (scoreSourcesAndGate p sources).metrics.lowInfoRatio =
      (if sources.length = 0 then 1
       else ((sources.filter isLowInfo).length : ℚ) / sources.length) ∧
    (sources ≠ [] →
      (scoreSourcesAndGate p sources).metrics.topSourceScore ∈
        sources.map (fun s => 0.45 * clamp (((trimJs s.snippet).length : ℚ) / 300) +
          0.55 * clamp (((trimJs s.content).length : ℚ) / 2500)) ∧
      ∀ x ∈ sources.map (fun s => 0.45 * clamp (((trimJs s.snippet).length : ℚ) / 300) +
          0.55 * clamp (((trimJs s.content).length : ℚ) / 2500)),
        x ≤ (scoreSourcesAndGate p sources).metrics.topSourceScore) ∧
    ((scoreSourcesAndGate p sources).passed = true ↔
      (12 ≤ sources.length ∧
       6 ≤ uniqueDomainsScored p (sources.map Source.url) ∧
       0.45 ≤ (scoreSourcesAndGate p sources).metrics.avgScore ∧
       0.65 ≤ (scoreSourcesAndGate p sources).metrics.topSourceScore ∧
       0.55 ≤ (scoreSourcesAndGate p sources).metrics.top3AvgScore ∧
       (scoreSourcesAndGate p sources).metrics.lowInfoRatio ≤ 0.5)) ∧
    (scoreSourcesAndGate p []).metrics.lowInfoRatio = 1 ∧
    (scoreSourcesAndGate p []).passed = false := by
  set f : Source → Source := fun s =>
    { s with score := some (scoreOne s).1, scoreBreakdown := some (scoreOne s).2 }
    with hf
  set scored0 := sources.map f with hscored0
  set sorted := List.insertionSort descByScore scored0 with hsorted
  have hperm : sorted.Perm scored0 := List.perm_insertionSort _ _
  have hlen : sorted.length = sources.length := by
    rw [hsorted, List.length_insertionSort, hscored0, List.length_map]
  have hscored : (scoreSourcesAndGate p sources).scored = sorted := rfl
  have hmemf : ∀ s ∈ sorted, ∃ t, t ∈ sources ∧ f t = s := by
    intro s hs
    exact List.mem_map.mp (hperm.mem_iff.mp hs)
  have hmapurl : (sorted.map Source.url).Perm (sources.map Source.url) := by
    have h1 := hperm.map Source.url
    rwa [hscored0, scored_map_url sources] at h1
  have hsources : (scoreSourcesAndGate p sources).metrics.sources = sources.length := by
    show sorted.length = sources.length
    exact hlen
  have hdomains : (scoreSourcesAndGate p sources).metrics.uniqueDomains =
      uniqueDomainsScored p (sources.map Source.url) := by
    show uniqueDomainsScored p (sorted.map Source.url) =
      uniqueDomainsScored p (sources.map Source.url)
    unfold uniqueDomainsScored
    rw [List.toFinset_eq_of_perm _ _ (hmapurl.filterMap _)]
  have hgetd : (fun s => Option.getD s.score 0) ∘ f =
      (fun s => 0.45 * clamp (((trimJs s.snippet).length : ℚ) / 300) +
        0.55 * clamp (((trimJs s.content).length : ℚ) / 2500)) := rfl
  have havg : (scoreSourcesAndGate p sources).metrics.avgScore =
      (if sources.length = 0 then 0
       else (sources.map (fun s => 0.45 * clamp (((trimJs s.snippet).length : ℚ) / 300) +
         0.55 * clamp (((trimJs s.content).length : ℚ) / 2500))).sum / sources.length) := by
    show (if sorted.length = 0 then 0
      else (sorted.map (fun s => Option.getD s.score 0)).sum / sorted.length) = _
    rw [hlen, (hperm.map (fun s => Option.getD s.score 0)).sum_eq, hscored0,
      List.map_map, hgetd]
  have hlowf : isLowInfo ∘ f = isLowInfo := rfl
  have hlow : (scoreSourcesAndGate p sources).metrics.lowInfoRatio =
      (if sources.length = 0 then 1
       else ((sources.filter isLowInfo).length : ℚ) / sources.length) := by
    show (if sorted.length = 0 then 1
      else ((sorted.filter isLowInfo).length : ℚ) / sorted.length) = _
    rw [hlen, (hperm.filter isLowInfo).length_eq, hscored0, List.filter_map, hlowf,
      List.length_map]
  have hpass : (scoreSourcesAndGate p sources).passed =
      (decide (12 ≤ (scoreSourcesAndGate p sources).metrics.sources) &&
       decide (6 ≤ (scoreSourcesAndGate p sources).metrics.uniqueDomains) &&
       decide (0.45 ≤ (scoreSourcesAndGate p sources).metrics.avgScore) &&
       decide (0.65 ≤ (scoreSourcesAndGate p sources).metrics.topSourceScore) &&
       decide (0.55 ≤ (scoreSourcesAndGate p sources).metrics.top3AvgScore) &&
       decide ((scoreSourcesAndGate p sources).metrics.lowInfoRatio ≤ 0.5)) := rfl
  refine ⟨?_, hsources, hdomains, havg, hlow, ?_, ?_, rfl, rfl⟩
  · intro s hs
    rw [hscored] at hs
    obtain ⟨t, -, rfl⟩ := hmemf s hs
    exact ⟨rfl, rfl⟩
  · intro hne
    have hne' : sorted ≠ [] := by
      intro h0
      rw [h0] at hlen
      exact hne (List.length_eq_zero.mp hlen.symm)
    obtain ⟨s, rest, hcons⟩ := List.exists_cons_of_ne_nil hne'
    have htop : (scoreSourcesAndGate p sources).metrics.topSourceScore =
        Option.getD s.score 0 := by
      show (match sorted with
        | [] => (0 : ℚ)
        | s :: _ => Option.getD s.score 0) = _
      rw [hcons]
    have hsortedrel := List.sorted_insertionSort descByScore scored0
    rw [← hsorted, hcons] at hsortedrel
    constructor
    · obtain ⟨t, ht, hft⟩ := hmemf s (by rw [hcons]; exact List.mem_cons_self s rest)
      rw [htop, ← hft]
      exact List.mem_map.mpr ⟨t, ht, rfl⟩
    · intro x hx
      obtain ⟨t, ht, hxt⟩ := List.mem_map.mp hx
      have hmem : f t ∈ sorted := hperm.mem_iff.mpr (List.mem_map.mpr ⟨t, ht, rfl⟩)
      rw [hcons] at hmem
      rw [htop, ← hxt]
      rcases List.mem_cons.mp hmem with heq | hmem'
      · rw [← heq]
        exact le_refl _
      · exact List.rel_of_sorted_cons hsortedrel (f t) hmem'
  · rw [hpass]
    simp only [Bool.and_eq_true, decide_eq_true_eq]
    rw [hsources, hdomains]
    constructor
    · rintro ⟨⟨⟨⟨⟨h1, h2⟩, h3⟩, h4⟩, h5⟩, h6⟩
      exact ⟨h1, h2, h3, h4, h5, h6⟩
    · rintro ⟨h1, h2, h3, h4, h5, h6⟩
      exact ⟨⟨⟨⟨⟨h1, h2⟩, h3⟩, h4⟩, h5⟩, h6⟩

/-- Claim C5 witness: a singleton source list does not pass the gate (fewer
than 12 sources); its single scored record carries the formula score, and
the reported top score is one of the formula scores of the input. -/
theorem claim_C5_scored_gate_witness :
    (scoreSourcesAndGate (fun u => some u) [mkSource "u".toList]).passed = false ∧
    ({ mkSource "u".toList with
        score := some (scoreOne (mkSource "u".toList)).1,
        scoreBreakdown := some (scoreOne (mkSource "u".toList)).2 } : Source).score =
      some (0.45 * clamp (((trimJs ({ mkSource "u".toList with
        score := some (scoreOne (mkSource "u".toList)).1,
        scoreBreakdown := some (scoreOne (mkSource "u".toList)).2 } : Source).snippet).length : ℚ) / 300) +
        0.55 * clamp (((trimJs ({ mkSource "u".toList with
        score := some (scoreOne (mkSource "u".toList)).1,
        scoreBreakdown := some (scoreOne (mkSource "u".toList)).2 } : Source).content).length : ℚ) / 2500)) ∧
    (scoreSourcesAndGate (fun u => some u)
        [mkSource "u".toList]).metrics.topSourceScore ∈
      [mkSource "u".toList].map
        (fun s => 0.45 * clamp (((trimJs s.snippet).length : ℚ) / 300) +
          0.55 * clamp (((trimJs s.content).length : ℚ) / 2500)) := by
  have hscored : (scoreSourcesAndGate (fun u => some u) [mkSource "u".toList]).scored =
      [{ mkSource "u".toList with
          score := some (scoreOne (mkSource "u".toList)).1,
          scoreBreakdown := some (scoreOne (mkSource "u".toList)).2 }] := rfl
  have hmem := (claim_C5_scored_gate (fun u => some u) [mkSource "u".toList]).1
    { mkSource "u".toList with
        score := some (scoreOne (mkSource "u".toList)).1,
        scoreBreakdown := some (scoreOne (mkSource "u".toList)).2 }
    (by rw [hscored]; exact List.mem_singleton.mpr rfl)
  have htop := ((claim_C5_scored_gate (fun u => some u)
    [mkSource "u".toList]).2.2.2.2.2.1 (by decide)).1
  exact ⟨by decide, hmem.1, htop⟩

/-! ### Helper lemmas: keyword extraction -/

lemma lexLt_asymm : ∀ a b : Str, lexLt a b = true → lexLt b a = false
  | [], [], h => by simp [lexLt] at h
  | [], _ :: _, _ => by simp [lexLt]
  | _ :: _, [], h => by simp [lexLt] at h
  | a :: as, b :: bs, h => by
    rw [lexLt] at h ⊢
    by_cases hab : a < b
    · rw [if_neg (lt_asymm hab), if_pos hab]
    · rw [if_neg hab] at h
      by_cases hba : b < a
      · rw [if_pos hba] at h
        cases h
      · rw [if_neg hba] at h
        rw [if_neg hba, if_neg hab]
        exact lexLt_asymm as bs h

lemma lexLt_antisymm : ∀ a b : Str, lexLt a b = false → lexLt b a = false → a = b
  | [], [], _, _ => rfl
  | [], _ :: _, h, _ => by simp [lexLt] at h
  | _ :: _, [], _, h => by simp [lexLt] at h
  | a :: as, b :: bs, h₁, h₂ => by
    rw [lexLt] at h₁ h₂
    by_cases hab : a < b
    · rw [if_pos hab] at h₁
      cases h₁
    · by_cases hba : b < a
      · rw [if_pos hba] at h₂
        cases h₂
      · have hab' : a = b := le_antisymm (not_lt.mp hba) (not_lt.mp hab)
        rw [if_neg hab, if_neg hba] at h₁
        rw [if_neg hba, if_neg hab] at h₂
        rw [hab', lexLt_antisymm as bs h₁ h₂]

lemma lexLt_trans : ∀ a b c : Str, lexLt a b = true → lexLt b c = true → lexLt a c = true
  | [], _, _ :: _, _, _ => by simp [lexLt]
  | [], b, [], _, h => by cases b <;> simp [lexLt] at h
  | _ :: _, b, [], h₁, h₂ => by
    cases b with
    | nil => simp [lexLt] at h₁
    | cons x xs => simp [lexLt] at h₂
  | a :: as, b, c :: cs, h₁, h₂ => by
    cases b with
    | nil => simp [lexLt] at h₁
    | cons x xs =>
      rw [lexLt] at h₁ h₂ ⊢
      by_cases hax : a < x
      · by_cases hxc : x < c
        · rw [if_pos (lt_trans hax hxc)]
        · by_cases hcx : c < x
          · rw [if_neg hxc, if_pos hcx] at h₂
            cases h₂
          · have hxc' : x = c := le_antisymm (not_lt.mp hcx) (not_lt.mp hxc)
            rw [if_pos (hxc' ▸ hax)]
      · by_cases hxa : x < a
        · rw [if_neg hax, if_pos hxa] at h₁
          cases h₁
        · have hax' : a = x := le_antisymm (not_lt.mp hxa) (not_lt.mp hax)
          rw [if_neg hax, if_neg hxa] at h₁
          by_cases hxc : x < c
          · rw [if_pos (hax' ▸ hxc)]
          · by_cases hcx : c < x
            · rw [if_neg hxc, if_pos hcx] at h₂
              cases h₂
            · have hxc' : x = c := le_antisymm (not_lt.mp hcx) (not_lt.mp hxc)
              have hac : ¬ a < c := by rw [hax', hxc']; exact lt_irrefl c
              have hca : ¬ c < a := by rw [hax', hxc']; exact lt_irrefl c
              rw [if_neg hac, if_neg hca]
              rw [if_neg hxc, if_neg hcx] at h₂
              exact lexLt_trans as xs cs h₁ h₂

instance (toks : List Str) : IsTotal Str (keywordOrder toks) := by
  constructor
  intro a b
  unfold keywordOrder lePairB lexLe
  simp only [Bool.or_eq_true, Bool.and_eq_true, decide_eq_true_eq, Bool.not_eq_true']
  rcases lt_trichotomy (toks.count a) (toks.count b) with h | h | h
  · right; left; exact h
  · cases hlt : lexLt b a with
    | false => left; right; exact ⟨h, rfl⟩
    | true => right; right; exact ⟨h.symm, lexLt_asymm b a hlt⟩
  · left; left; exact h

instance (toks : List Str) : IsTrans Str (keywordOrder toks) := by
  constructor
  intro a b c hab hbc
  unfold keywordOrder lePairB lexLe at hab hbc ⊢
  simp only [Bool.or_eq_true, Bool.and_eq_true, decide_eq_true_eq,
    Bool.not_eq_true'] at hab hbc ⊢
  rcases hab with hab | ⟨hab1, hab2⟩
  · rcases hbc with hbc | ⟨hbc1, hbc2⟩
    · left; omega
    · left; omega
  · rcases hbc with hbc | ⟨hbc1, hbc2⟩
    · left; omega
    · right
      refine ⟨by omega, ?_⟩
      by_cases hca : lexLt c a = true
      · cases hbcx : lexLt b c with
        | true =>
          have htr := lexLt_trans b c a hbcx hca
          rw [hab2] at htr
          cases htr
        | false =>
          have hbc' : b = c := lexLt_antisymm b c hbcx hbc2
          rw [← hbc', hab2] at hca
          cases hca
      · cases h : lexLt c a with
        | false => rfl
        | true => exact absurd h hca

lemma bump_keys (t : Str) : ∀ acc : List (Str × ℕ),
    (bump acc t).map Prod.fst =
      if t ∈ acc.map Prod.fst then acc.map Prod.fst else acc.map Prod.fst ++ [t] := by
  intro acc
  induction acc with
  | nil => simp [bump]
  | cons kn rest ih =>
    obtain ⟨k, n⟩ := kn
    by_cases hk : k = t
    · subst hk
      simp [bump]
    · simp only [bump, if_neg hk, List.map_cons]
      rw [ih]
      by_cases hmem : t ∈ rest.map Prod.fst
      · rw [if_pos hmem, if_pos (List.mem_cons_of_mem _ hmem)]
      · have hnc : t ∉ k :: rest.map Prod.fst := by
          intro hc
          rcases List.mem_cons.mp hc with hc | hc
          · exact hk hc.symm
          · exact hmem hc
        rw [if_neg hmem, if_neg hnc, List.cons_append]

lemma bump_append (t : Str) : ∀ acc : List (Str × ℕ), t ∉ acc.map Prod.fst →
    bump acc t = acc ++ [(t, 1)] := by
  intro acc
  induction acc with
  | nil => intro _; rfl
  | cons kn rest ih =>
    intro h
    obtain ⟨k, n⟩ := kn
    have hk : k ≠ t := by
      intro he
      exact h (by simp [he])
    simp only [bump, if_neg hk, List.cons_append]
    rw [ih (fun hm => h (by simp [hm]))]

lemma bump_shift_mem (toks : List Str) (t : Str) : ∀ acc : List (Str × ℕ),
    (acc.map Prod.fst).Nodup → t ∈ acc.map Prod.fst →
    (bump acc t).map (fun kn => (kn.1, kn.2 + toks.count kn.1)) =
      acc.map (fun kn => (kn.1, kn.2 + (t :: toks).count kn.1)) := by
  intro acc
  induction acc with
  | nil =>
    intro _ h
    simp at h
  | cons kn rest ih =>
    intro hnd hmem
    obtain ⟨k, n⟩ := kn
    rw [List.map_cons, List.nodup_cons] at hnd
    by_cases hk : k = t
    · subst hk
      have hb : bump ((k, n) :: rest) k = (k, n + 1) :: rest := by simp [bump]
      rw [hb, List.map_cons, List.map_cons]
      congr 1
      · show (k, n + 1 + List.count k toks) = (k, n + List.count k (k :: toks))
        rw [List.count_cons_self]
        simp only [Prod.mk.injEq]
        exact ⟨trivial, by omega⟩
      · apply List.map_congr_left
        intro kn' hkn'
        have hne : kn'.1 ≠ k := by
          intro he
          exact hnd.1 (he ▸ List.mem_map.mpr ⟨kn', hkn', rfl⟩)
        show (kn'.1, kn'.2 + List.count kn'.1 toks) =
          (kn'.1, kn'.2 + List.count kn'.1 (k :: toks))
        rw [List.count_cons_of_ne hne]
    · have hmem' : t ∈ rest.map Prod.fst := by
        rcases List.mem_cons.mp hmem with hc | hc
        · exact absurd hc.symm hk
        · exact hc
      simp only [bump, if_neg hk, List.map_cons]
      rw [ih hnd.2 hmem']
      congr 1
      show (k, n + List.count k toks) = (k, n + List.count k (t :: toks))
      rw [List.count_cons_of_ne hk]

lemma mem_firstDedupAux : ∀ (l seen : List Str) (x : Str),
    x ∈ firstDedupAux seen l → x ∉ seen ∧ x ∈ l := by
  intro l
  induction l with
  | nil =>
    intro seen x h
    simp [firstDedupAux] at h
  | cons y ys ih =>
    intro seen x h
    rw [firstDedupAux] at h
    by_cases hy : y ∈ seen
    · rw [if_pos hy] at h
      obtain ⟨h1, h2⟩ := ih seen x h
      exact ⟨h1, List.mem_cons_of_mem _ h2⟩
    · rw [if_neg hy] at h
      rcases List.mem_cons.mp h with rfl | h
      · exact ⟨hy, List.mem_cons_self _ _⟩
      · obtain ⟨h1, h2⟩ := ih (y :: seen) x h
        exact ⟨fun hc => h1 (List.mem_cons_of_mem _ hc), List.mem_cons_of_mem _ h2⟩

lemma firstDedupAux_congr : ∀ (l s₁ s₂ : List Str),
    (∀ y, y ∈ s₁ ↔ y ∈ s₂) → firstDedupAux s₁ l = firstDedupAux s₂ l := by
  intro l
  induction l with
  | nil => intro s₁ s₂ _; rfl
  | cons y ys ih =>
    intro s₁ s₂ he
    rw [firstDedupAux, firstDedupAux]
    by_cases hy : y ∈ s₁
    · rw [if_pos hy, if_pos ((he y).mp hy)]
      exact ih s₁ s₂ he
    · rw [if_neg hy, if_neg (fun hc => hy ((he y).mpr hc))]
      rw [ih (y :: s₁) (y :: s₂) ?_]
      intro z
      rw [List.mem_cons, List.mem_cons, he z]

lemma firstDedupAux_nodup : ∀ (l seen : List Str), (firstDedupAux seen l).Nodup := by
  intro l
  induction l with
  | nil => intro seen; simp [firstDedupAux]
  | cons y ys ih =>
    intro seen
    rw [firstDedupAux]
    by_cases hy : y ∈ seen
    · rw [if_pos hy]
      exact ih seen
    · rw [if_neg hy, List.nodup_cons]
      refine ⟨?_, ih (y :: seen)⟩
      intro hc
      exact (mem_firstDedupAux ys (y :: seen) y hc).1 (List.mem_cons_self _ _)

lemma foldl_bump_closed (toks : List Str) : ∀ acc : List (Str × ℕ),
    (acc.map Prod.fst).Nodup →
    toks.foldl bump acc =
      acc.map (fun kn => (kn.1, kn.2 + toks.count kn.1)) ++
        (firstDedupAux (acc.map Prod.fst) toks).map (fun k => (k, toks.count k)) := by
  induction toks with
  | nil =>
    intro acc _
    simp [firstDedupAux]
  | cons t toks ih =>
    intro acc hnd
    rw [List.foldl_cons]
    by_cases hmem : t ∈ acc.map Prod.fst
    · have hkeys : (bump acc t).map Prod.fst = acc.map Prod.fst := by
        rw [bump_keys, if_pos hmem]
      rw [ih (bump acc t) (by rw [hkeys]; exact hnd), hkeys,
        bump_shift_mem toks t acc hnd hmem]
      congr 1
      · rw [firstDedupAux, if_pos hmem]
        apply List.map_congr_left
        intro k hk
        have hne : k ≠ t := by
          intro he
          exact (mem_firstDedupAux toks (acc.map Prod.fst) k hk).1 (he ▸ hmem)
        rw [List.count_cons_of_ne hne]
    · have hb : bump acc t = acc ++ [(t, 1)] := bump_append t acc hmem
      have hkeys : (bump acc t).map Prod.fst = acc.map Prod.fst ++ [t] := by
        rw [bump_keys, if_neg hmem]
      have hnd' : ((bump acc t).map Prod.fst).Nodup := by
        rw [hkeys, List.nodup_append]
        refine ⟨hnd, List.nodup_singleton t, ?_⟩
        intro x hx hx'
        rw [List.mem_singleton] at hx'
        exact hmem (hx' ▸ hx)
      have hone : ([((t : Str), (1 : ℕ))].map (fun kn => (kn.1, kn.2 + toks.count kn.1))) =
          [(t, (t :: toks).count t)] := by
        simp [List.count_cons_self]
        omega
      have hshift : acc.map (fun kn => (kn.1, kn.2 + toks.count kn.1)) =
          acc.map (fun kn => (kn.1, kn.2 + (t :: toks).count kn.1)) := by
        apply List.map_congr_left
        intro kn hkn
        have hne : kn.1 ≠ t := by
          intro he
          exact hmem (he ▸ List.mem_map.mpr ⟨kn, hkn, rfl⟩)
        rw [List.count_cons_of_ne hne]
      have hdedup : firstDedupAux ((bump acc t).map Prod.fst) toks =
          firstDedupAux (t :: acc.map Prod.fst) toks := by
        apply firstDedupAux_congr
        intro y
        rw [hkeys, List.mem_append, List.mem_singleton, List.mem_cons]
        tauto
      have htail : (firstDedupAux (t :: acc.map Prod.fst) toks).map
            (fun k => ((k : Str), toks.count k)) =
          (firstDedupAux (t :: acc.map Prod.fst) toks).map
            (fun k => (k, (t :: toks).count k)) := by
        apply List.map_congr_left
        intro k hk
        have hne : k ≠ t := by
          intro he
          exact (mem_firstDedupAux toks (t :: acc.map Prod.fst) k hk).1
            (he ▸ List.mem_cons_self t _)
        rw [List.count_cons_of_ne hne]
      have hrhs : firstDedupAux (acc.map Prod.fst) (t :: toks) =
          t :: firstDedupAux (t :: acc.map Prod.fst) toks := by
        rw [firstDedupAux, if_neg hmem]
      rw [ih (bump acc t) hnd']
      have hfold : (bump acc t).map (fun kn => (kn.1, kn.2 + toks.count kn.1)) =
          acc.map (fun kn => (kn.1, kn.2 + toks.count kn.1)) ++ [(t, (t :: toks).count t)] := by
        rw [hb, List.map_append, hone]
      rw [hfold, hdedup, hrhs, List.map_cons]
      rw [← htail, ← hshift, List.append_assoc, List.singleton_append]

lemma foldl_step_filter : ∀ (ts : List Str) (acc : List (Str × ℕ)),
    ts.foldl (fun acc token =>
      if token.length < 4 then acc
      else if token ∈ stopWords then acc
      else bump acc token) acc =
    (ts.filter (fun t => decide (4 ≤ t.length) && !(decide (t ∈ stopWords)))).foldl bump acc := by
  intro ts
  induction ts with
  | nil => intro acc; rfl
  | cons t ts ih =>
    intro acc
    rw [List.foldl_cons, List.filter_cons]
    by_cases h4 : t.length < 4
    · rw [if_pos h4, if_neg (by simp; omega)]
      exact ih acc
    · rw [if_neg h4]
      by_cases hstop : t ∈ stopWords
      · rw [if_pos hstop, if_neg (by simp [hstop])]
        exact ih acc
      · rw [if_neg hstop, if_pos (by simp [hstop]; omega), List.foldl_cons]
        exact ih (bump acc t)

lemma orderedInsert_map (toks : List Str) (a : Str) : ∀ l : List Str,
    List.orderedInsert lePair (a, toks.count a) (l.map (fun k => (k, toks.count k))) =
      (List.orderedInsert (keywordOrder toks) a l).map (fun k => (k, toks.count k)) := by
  intro l
  induction l with
  | nil => rfl
  | cons b bs ih =>
    simp only [List.map_cons, List.orderedInsert]
    by_cases h : keywordOrder toks a b
    · have hl : lePair (a, toks.count a) (b, toks.count b) := h
      rw [if_pos h, if_pos hl]
      simp only [List.map_cons]
    · have hl : ¬ lePair (a, toks.count a) (b, toks.count b) := h
      rw [if_neg h, if_neg hl, List.map_cons, ih]

lemma insertionSort_map (toks : List Str) : ∀ l : List Str,
    List.insertionSort lePair (l.map (fun k => (k, toks.count k))) =
      (List.insertionSort (keywordOrder toks) l).map (fun k => (k, toks.count k)) := by
  intro l
  induction l with
  | nil => rfl
  | cons b bs ih =>
    simp only [List.map_cons, List.insertionSort]
    rw [ih, orderedInsert_map]

/-- Claim C6.  Keyword extraction equals: clean (lowercase, strip to
letters/digits/hyphen, collapse, trim), split, discard short and stop-word
tokens, then list each distinct surviving token once, sorted by descending
frequency with ties broken by ascending lexicographic order, truncated to
`max`; empty input yields the empty sequence; every output token is a long
non-stop surviving token; the output is sorted in that order and has no
duplicates. -/
theorem claim_C6_keyword_extraction (text : Str) (max : ℕ) :
    extractKeywordsDeterministic text max =
      (List.insertionSort (keywordOrder (keywordTokens text))
        (firstDedup (keywordTokens text))).take max ∧
    extractKeywordsDeterministic [] max = [] ∧
    (∀ t ∈ extractKeywordsDeterministic text max,
      4 ≤ t.length ∧ t ∉ stopWords ∧ t ∈ keywordTokens text) ∧
    List.Sorted (keywordOrder (keywordTokens text))
      (extractKeywordsDeterministic text max) ∧
    (extractKeywordsDeterministic text max).Nodup := by
  have main : ∀ txt : Str, extractKeywordsDeterministic txt max =
      (List.insertionSort (keywordOrder (keywordTokens txt))
        (firstDedup (keywordTokens txt))).take max := by
    intro txt
    by_cases hc : cleanKeywordText txt = []
    · have hkt : keywordTokens txt = [] := by
        unfold keywordTokens
        rw [hc]
        rfl
      unfold extractKeywordsDeterministic
      rw [if_pos hc, hkt]
      simp [firstDedup, firstDedupAux, List.insertionSort]
    · unfold extractKeywordsDeterministic
      rw [if_neg hc, foldl_step_filter]
      have hkt : (splitOnSpace (cleanKeywordText txt)).filter
          (fun t => decide (4 ≤ t.length) && !(decide (t ∈ stopWords))) =
          keywordTokens txt := rfl
      rw [hkt]
      have h1 : (keywordTokens txt).foldl bump [] =
          (firstDedup (keywordTokens txt)).map
            (fun k => (k, (keywordTokens txt).count k)) := by
        have h := foldl_bump_closed (keywordTokens txt) [] (by simp)
        simpa [firstDedup] using h
      show ((List.insertionSort lePair
        ((keywordTokens txt).foldl bump [])).take max).map Prod.fst = _
      rw [h1, insertionSort_map, ← List.map_take, List.map_map]
      have hid : (Prod.fst ∘ fun k => ((k : Str), (keywordTokens txt).count k)) = id := rfl
      rw [hid, List.map_id]
  have hsorted : List.Sorted (keywordOrder (keywordTokens text))
      (extractKeywordsDeterministic text max) := by
    rw [main text]
    exact (List.sorted_insertionSort (keywordOrder (keywordTokens text))
      (firstDedup (keywordTokens text))).sublist (List.take_sublist _ _)
  have hnodup : (extractKeywordsDeterministic text max).Nodup := by
    rw [main text]
    refine List.Nodup.sublist (List.take_sublist _ _) ?_
    exact ((List.perm_insertionSort (keywordOrder (keywordTokens text))
      (firstDedup (keywordTokens text))).nodup_iff).mpr (firstDedupAux_nodup _ [])
  refine ⟨main text, by rfl, ?_, hsorted, hnodup⟩
  intro t ht
  rw [main text] at ht
  have ht1 : t ∈ List.insertionSort (keywordOrder (keywordTokens text))
      (firstDedup (keywordTokens text)) := (List.take_sublist _ _).subset ht
  have ht2 : t ∈ firstDedup (keywordTokens text) :=
    (List.perm_insertionSort _ _).mem_iff.mp ht1
  have ht3 : t ∈ keywordTokens text :=
    (mem_firstDedupAux (keywordTokens text) [] t ht2).2
  have ht4 := (List.mem_filter.mp ht3).2
  simp only [Bool.and_eq_true, decide_eq_true_eq, Bool.not_eq_true',
    decide_eq_false_iff_not] at ht4
  exact ⟨ht4.1, ht4.2, ht3⟩

/-- Claim C6 witness: on the text "alpha beta beta" the surviving token
beta is at least 4 characters, not a stop word, and among the surviving
tokens, and the extraction at `max = 2` is sorted and duplicate-free. -/
theorem claim_C6_keyword_extraction_witness :
    4 ≤ ("beta".toList).length ∧
    "beta".toList ∉ stopWords ∧
    "beta".toList ∈ keywordTokens "alpha beta beta".toList ∧
    (extractKeywordsDeterministic "alpha beta beta".toList 2).Nodup := by
  have h := claim_C6_keyword_extraction "alpha beta beta".toList 2
  have hm := h.2.2.1 "beta".toList (by decide)
  exact ⟨hm.1, hm.2.1, hm.2.2, h.2.2.2.2⟩
